import Mathlib

/-!
# Verification of the global identifier allocation subsystem

Shallow embedding of `scripts/convert_xlsx_to_json.py`: the tag store
(`id_map.json` load/save), the allocator (`_alloc_next_free`), the origin
tracker (`_set_origin_if_needed`), and the placeholder resolver
(`map_token_to_global_id`, `resolve_placeholders_for_numeric_columns`,
`convert_excel`, `main`).

Modelling conventions:
* Python `dict`s become association lists with Python-dict semantics
  (lookup finds the first binding; assignment updates the first binding in
  place or appends a fresh key at the end).
* Spreadsheet cells reach the resolver as `Option String` (`none` models a
  pandas NA cell, which `map_cell` turns into `""`).
* A raised Python exception is modelled by `none`/an error flag; the store
  value threaded up to the point of the raise is preserved, mirroring the
  in-place mutation of `idmap`.
* `int(float(str(v)))` is modelled for the decimal forms
  `[+|-] digits [. digits]` (truncation toward zero); exotic float syntax
  (exponents, underscores, infinities) is outside the modelled subset.
* Machine-level concerns of the script (the final `.astype("int64")` cast,
  file I/O, logging) are out of scope, as in the spec's §1.
-/

/-- Python `str.strip()` on a character list: drop whitespace from both ends. -/
def stripChars (cs : List Char) : List Char :=
  ((cs.dropWhile Char.isWhitespace).reverse.dropWhile Char.isWhitespace).reverse

/-- Python `str.strip()`. -/
def pyStrip (s : String) : String := String.mk (stripChars s.data)

/-- Association-list lookup with Python-`dict` semantics (first binding wins). -/
def alookup {α : Type} : List (String × α) → String → Option α
  | [], _ => none
  | (k, v) :: rest, key => if k = key then some v else alookup rest key

/-- Python `d[key] = v`: update the first binding in place, else append. -/
def dictInsert {α : Type} : List (String × α) → String → α → List (String × α)
  | [], key, v => [(key, v)]
  | (k, w) :: rest, key, v =>
    if k = key then (key, v) :: rest else (k, w) :: dictInsert rest key v

/-- Origin metadata attached to a tag: `{"sheetName": ..., "columnName": ...}`. -/
structure Origin where
  sheetName : String
  columnName : String
deriving Repr, DecidableEq

/-- In-memory shape of the id map built by `load_id_map`:
`idmap["tags"]`, `idmap["_origins"]`, `idmap["_next"]`. -/
structure IdMap where
  tags : List (String × Int)
  origins : List (String × Origin)
  next : Int
deriving Repr, DecidableEq

/-- The `while nxt in taken: nxt += 1` loop of `_alloc_next_free`, with
explicit fuel (the list length bounds the number of collisions). -/
def allocLoop (taken : List Int) : Nat → Int → Int
  | 0, nxt => nxt
  | fuel + 1, nxt => if nxt ∈ taken then allocLoop taken fuel (nxt + 1) else nxt

/-- `_alloc_next_free(idmap)`: first value `≥ idmap["_next"]` not already
assigned to a tag; advances `_next` past the returned value. -/
def _alloc_next_free (m : IdMap) : Int × IdMap :=
  let taken := m.tags.map Prod.snd
  let nxt := allocLoop taken taken.length m.next
  (nxt, { m with next := nxt + 1 })

/-- Python `s.split(';')` on a character list. -/
def semiSplit : List Char → List (List Char)
  | [] => [[]]
  | c :: rest =>
    match semiSplit rest with
    | [] => [[]]
    | h :: t => if c = ';' then [] :: h :: t else (c :: h) :: t

/-- Python `";".join(parts)` on character lists. -/
def joinSemi : List (List Char) → List Char
  | [] => []
  | [p] => p
  | p :: q :: t => p ++ ';' :: joinSemi (q :: t)

/-- `[p.strip() for p in t.split(';') if p.strip() != ""]`. -/
def partsOf (cs : List Char) : List (List Char) :=
  ((semiSplit cs).map stripChars).filter (fun p => !p.isEmpty)

/-- `base_type_of(t)`: first `;`-segment, stripped and lower-cased;
`""` for a non-string (`None`) type. -/
def base_type_of (t : Option String) : String :=
  match t with
  | none => ""
  | some s => String.mk ((stripChars ((semiSplit s.data).headD [])).map Char.toLower)

/-- `append_id_marker(t)`: append the `id` flag to a `;`-separated type
string unless already present (case-insensitively). -/
def append_id_marker (t : Option String) : String :=
  match t with
  | none => "int;id"
  | some s =>
    if s = "" then "int;id"
    else
      let ps := partsOf s.data
      if (ps.map (fun p => p.map Char.toLower)).contains ['i', 'd'] then
        String.mk (joinSemi ps)
      else
        String.mk (joinSemi (ps ++ [['i', 'd']]))

/-- Whether a type annotation carries the resolved-identifier (`id`) marker,
under the same part-splitting rules `append_id_marker` uses. -/
def hasIdMarker (t : Option String) : Bool :=
  match t with
  | none => false
  | some s => ((partsOf s.data).map (fun p => p.map Char.toLower)).contains ['i', 'd']

/-- `str(x).strip() or "UNKNOWN"`: strip, defaulting empty to `"UNKNOWN"`. -/
def orUnknown (s : String) : String :=
  let t := pyStrip s
  if t = "" then "UNKNOWN" else t

/-- `(name or "UNKNOWN").strip() or "UNKNOWN"` from `_set_origin_if_needed`. -/
def normName (s : String) : String :=
  let t := if s = "" then "UNKNOWN" else s
  let u := pyStrip t
  if u = "" then "UNKNOWN" else u

/-- One field of the origin refinement: replace `"UNKNOWN"` by a concrete
value, never overwrite a concrete value. -/
def refineField (cur new : String) : String :=
  if cur = "UNKNOWN" ∧ new ≠ "UNKNOWN" then new else cur

/-- Field-wise origin refinement used for an already-present origin. -/
def refineOrigin (o : Origin) (ns nc : String) : Origin :=
  ⟨refineField o.sheetName ns, refineField o.columnName nc⟩

/-- Python in-place update of the (unique) binding of `key` in a dict of
origins: rewrite the first occurrence. -/
def updateOrigin : List (String × Origin) → String → Origin → List (String × Origin)
  | [], _, _ => []
  | (k, v) :: rest, key, o =>
    if k = key then (key, o) :: rest else (k, v) :: updateOrigin rest key o

/-- The origins-dict part of `_set_origin_if_needed` (names already
normalised). -/
def setOriginList (l : List (String × Origin)) (tag ns nc : String) :
    List (String × Origin) :=
  match alookup l tag with
  | none => l ++ [(tag, ⟨ns, nc⟩)]
  | some o => updateOrigin l tag (refineOrigin o ns nc)

/-- `_set_origin_if_needed(idmap, tag, sheet_name, column_name)`. -/
def _set_origin_if_needed (m : IdMap) (tag sheet col : String) : IdMap :=
  { m with origins := setOriginList m.origins tag (normName sheet) (normName col) }

/-- `ID_TAG_RE = re.compile(r"^\[(.+?)\]$")` applied to a whole token:
`some group1` on a match. `.` does not match a newline in Python, and the
anchors force the group to be everything strictly between the outer
brackets. -/
def ID_TAG_RE_match (s : String) : Option String :=
  match s.data with
  | '[' :: rest =>
    match rest.reverse with
    | ']' :: revMid =>
      let mid := revMid.reverse
      if mid.isEmpty then none
      else if mid.contains '\n' then none
      else some (String.mk mid)
    | _ => none
  | _ => none

/-- Digits to a natural number (the string is already validated). -/
def digitsToNat (l : List Char) : Nat :=
  l.foldl (fun acc c => acc * 10 + (c.toNat - 48)) 0

/-- `_must_int(v) = int(float(str(v)))` on the modelled decimal subset:
optional sign, digits, optional `.` + digits; truncation toward zero.
`none` models the raised `ValueError`. -/
def _must_int (s : String) : Option Int :=
  let cs := s.data
  let signBody : Bool × List Char :=
    match cs with
    | '-' :: rest => (true, rest)
    | '+' :: rest => (false, rest)
    | _ => (false, cs)
  let neg := signBody.1
  let body := signBody.2
  let intPart := body.takeWhile Char.isDigit
  let rest := body.dropWhile Char.isDigit
  let valid : Bool :=
    match rest with
    | [] => !intPart.isEmpty
    | '.' :: fr => (!intPart.isEmpty || !fr.isEmpty) && fr.all Char.isDigit
    | _ => false
  if valid then
    let n : Int := Int.ofNat (digitsToNat intPart)
    some (if neg then -n else n)
  else none

/-- `map_token_to_global_id(idmap, token, sheet_name, column_name)`:
`some ((id, was_tag), idmap')`, or `none` when `_must_int` raises. -/
def map_token_to_global_id (m : IdMap) (token sheet col : String) :
    Option ((Int × Bool) × IdMap) :=
  match ID_TAG_RE_match token with
  | some g =>
    let tag := pyStrip g
    match alookup m.tags tag with
    | some v => some ((v, true), _set_origin_if_needed m tag sheet col)
    | none =>
      let alloc := _alloc_next_free m
      let m2 := { alloc.2 with tags := dictInsert alloc.2.tags tag alloc.1 }
      some ((alloc.1, true), _set_origin_if_needed m2 tag sheet col)
  | none =>
    match _must_int token with
    | some v => some ((v, false), m)
    | none => none

/-- `"" if pd.isna(x) else str(x).strip()` from `map_cell`. -/
def cellToStr (x : Option String) : String :=
  match x with
  | none => ""
  | some s => pyStrip s

/-- The per-cell closure `map_cell` of
`resolve_placeholders_for_numeric_columns` (empty cell resolves to 0). -/
def map_cell (m : IdMap) (sheet col : String) (x : Option String) :
    Option ((Int × Bool) × IdMap) :=
  let s := cellToStr x
  if s = "" then some ((0, false), m)
  else map_token_to_global_id m s sheet col

/-- `df[col].apply(map_cell)` threading the store through the cells of one
column; `none` in the last component models the exception raised by
`_must_int` (the store keeps all mutations made before the raise). -/
def resolveColumnAux (sheet col : String) :
    List (Option String) → IdMap → Bool → List Int → IdMap × Bool × Option (List Int)
  | [], m, tagged, acc => (m, tagged, some acc.reverse)
  | x :: rest, m, tagged, acc =>
    match map_cell m sheet col x with
    | some ((v, wasTag), m') => resolveColumnAux sheet col rest m' (tagged || wasTag) (v :: acc)
    | none => (m, tagged, none)

/-- Resolution of one numeric column: resolved values plus the
`mapped_columns` flag for that column. -/
def resolveColumn (m : IdMap) (sheet col : String) (cells : List (Option String)) :
    IdMap × Bool × Option (List Int) :=
  resolveColumnAux sheet col cells m false []

/-- `types.get(col, "")` (a present `None` value is returned as such, a
missing key defaults to the string `""`). -/
def lookupType (types : List (String × Option String)) (col : String) : Option String :=
  match alookup types col with
  | none => some ""
  | some v => v

/-- Output shape of one column after `resolve_placeholders_for_numeric_columns`
and `df.fillna("")`: numeric columns are rewritten to integers, other
columns pass through with NA cells replaced by `""`. -/
inductive CellsOut where
  | raw (cells : List String) : CellsOut
  | nums (vals : List Int) : CellsOut
deriving Repr, DecidableEq

/-- The `for col in df.columns` loop of
`resolve_placeholders_for_numeric_columns`: resolve each int/long column,
collect `mapped_columns`, abort on the first raised exception. -/
def resolvePlaceholdersGo (sheet : String) (types0 : List (String × Option String)) :
    List (String × List (Option String)) → IdMap → List (String × CellsOut) →
    List String → IdMap × Option (List (String × CellsOut) × List String)
  | [], m, accCols, accMapped => (m, some (accCols.reverse, accMapped.reverse))
  | (col, cells) :: rest, m, accCols, accMapped =>
    let base := base_type_of (lookupType types0 col)
    if base = "int" ∨ base = "long" then
      match resolveColumn m sheet col cells with
      | (m', tagged, some vals) =>
        resolvePlaceholdersGo sheet types0 rest m' ((col, CellsOut.nums vals) :: accCols)
          (if tagged then col :: accMapped else accMapped)
      | (m', _, none) => (m', none)
    else
      resolvePlaceholdersGo sheet types0 rest m
        ((col, CellsOut.raw (cells.map (fun x => x.getD ""))) :: accCols) accMapped

/-- `for col in mapped_columns: types[col] = append_id_marker(types.get(col, "int"))`. -/
def applyMarkers (types : List (String × Option String)) :
    List String → List (String × Option String)
  | [] => types
  | col :: rest =>
    let t0 : Option String :=
      match alookup types col with
      | none => some "int"
      | some v => v
    applyMarkers (dictInsert types col (some (append_id_marker t0))) rest

/-- `resolve_placeholders_for_numeric_columns(df, types, idmap, sheet_name)`
on one sheet: the store after processing, and (on success) the updated
types dict and the rewritten columns. -/
def resolve_placeholders_for_numeric_columns (m : IdMap) (sheet : String)
    (types : List (String × Option String)) (cols : List (String × List (Option String))) :
    IdMap × Option (List (String × Option String) × List (String × CellsOut)) :=
  match resolvePlaceholdersGo sheet types cols m [] [] with
  | (m', none) => (m', none)
  | (m', some (outCols, mapped)) => (m', some (applyMarkers types mapped, outCols))

/-- One parsed sheet: type row, header row and data columns
(`convert_excel` builds `types` from rows 0–1 and `df` from row 2 on). -/
structure SheetData where
  name : String
  types : List (String × Option String)
  cols : List (String × List (Option String))
deriving Repr, DecidableEq

/-- One JSON file written by `convert_excel` for a sheet. -/
structure SheetOutput where
  sheet : String
  types : List (String × Option String)
  cols : List (String × CellsOut)
deriving Repr, DecidableEq

/-- One Excel workbook handed to `convert_excel`. -/
structure ExcelFileData where
  name : String
  sheets : List SheetData
deriving Repr, DecidableEq

/-- The sheet loop of `convert_excel`: empty sheets are skipped; a raised
exception aborts the file (the function logs and re-raises), keeping the
store mutations made so far. `none` models the escaping exception. -/
def convertSheets : List SheetData → IdMap → List SheetOutput → IdMap × Option (List SheetOutput)
  | [], m, acc => (m, some acc.reverse)
  | s :: rest, m, acc =>
    if s.cols.isEmpty || s.cols.all (fun c => c.2.isEmpty) then
      convertSheets rest m acc
    else
      match resolve_placeholders_for_numeric_columns m s.name s.types s.cols with
      | (m', some (types', outCols)) =>
        convertSheets rest m' (⟨s.name, types', outCols⟩ :: acc)
      | (m', none) => (m', none)

/-- `convert_excel(file_path, idmap)`. -/
def convert_excel (m : IdMap) (f : ExcelFileData) : IdMap × Option (List SheetOutput) :=
  convertSheets f.sheets m []

/-- The `for p in targets` loop inside `main`'s `try:` block: files are
processed sequentially; the first escaping exception stops the loop
(there is no per-file handler). The `Bool` records whether the run
aborted. -/
def runFiles : List ExcelFileData → IdMap → IdMap × List (String × List SheetOutput) × Bool
  | [], m => (m, [], false)
  | f :: rest, m =>
    match convert_excel m f with
    | (m', some outs) =>
      let r := runFiles rest m'
      (r.1, (f.name, outs) :: r.2.1, r.2.2)
    | (m', none) => (m', [], true)

/-- One record of the persisted v2 shape
`{"string": ..., "int": ..., "sheetName": ..., "columnName": ...}`.
`tagInt = none` models a value on which `int(...)` raises. -/
structure RawRecord where
  tagString : String
  tagInt : Option Int
  sheetName : String
  columnName : String
deriving Repr, DecidableEq

/-- The `tags` field of the persisted file: absent/ill-typed, the v1 flat
mapping, or the v2 record list (`none` entries model non-dict items). -/
inductive RawTags where
  | absent : RawTags
  | flat (entries : List (String × Option Int)) : RawTags
  | records (entries : List (Option RawRecord)) : RawTags
deriving Repr, DecidableEq

/-- The persisted `id_map.json` contents after JSON parsing.  `nextVal =
none` models a missing or unparseable `_next`. -/
structure RawFile where
  nextVal : Option Int
  tags : RawTags
deriving Repr, DecidableEq

/-- One iteration of the v1 (`tags` is a flat dict) import loop of
`load_id_map`. -/
def loadFlatEntry (m : IdMap) (kv : String × Option Int) : IdMap :=
  let key := pyStrip kv.1
  if key = "" then m
  else
    match kv.2 with
    | none => m
    | some v =>
      let m1 := { m with tags := dictInsert m.tags key v }
      if (alookup m1.origins key).isSome then m1
      else { m1 with origins := m1.origins ++ [(key, ⟨"UNKNOWN", "UNKNOWN"⟩)] }

/-- One iteration of the v2 (`tags` is a record list) import loop of
`load_id_map`. -/
def loadRecordEntry (m : IdMap) (item : Option RawRecord) : IdMap :=
  match item with
  | none => m
  | some it =>
    let key := pyStrip it.tagString
    if key = "" then m
    else
      match it.tagInt with
      | none => m
      | some v =>
        let sn := orUnknown it.sheetName
        let cn := orUnknown it.columnName
        let m1 := { m with tags := dictInsert m.tags key v }
        match alookup m1.origins key with
        | none => { m1 with origins := m1.origins ++ [(key, ⟨sn, cn⟩)] }
        | some ex => { m1 with origins := updateOrigin m1.origins key (refineOrigin ex sn cn) }

/-- `load_id_map()`: `none` models a missing or unparseable file (start
fresh); `idStart` is the `ID_START` configuration value. -/
def load_id_map (raw : Option RawFile) (idStart : Int) : IdMap :=
  match raw with
  | none => ⟨[], [], idStart⟩
  | some r =>
    let nxt := r.nextVal.getD idStart
    match r.tags with
    | RawTags.absent => ⟨[], [], nxt⟩
    | RawTags.flat es => es.foldl loadFlatEntry ⟨[], [], nxt⟩
    | RawTags.records es => es.foldl loadRecordEntry ⟨[], [], nxt⟩

/-- Stable insertion for the id-ascending sort used by `save_id_map`
(`items.sort(key=lambda x: x[1])` — Python's sort is stable). -/
def insertById (p : String × Int) : List (String × Int) → List (String × Int)
  | [] => [p]
  | q :: rest => if p.2 < q.2 then p :: q :: rest else q :: insertById p rest

/-- Stable sort of the tag items by identifier, ascending. -/
def sortById (l : List (String × Int)) : List (String × Int) :=
  l.foldr insertById []

/-- One output record of `save_id_map`: the tag, its id and its origin
(`"UNKNOWN"` when absent or blank). -/
def saveRecord (origins : List (String × Origin)) (kv : String × Int) : Option RawRecord :=
  match alookup origins kv.1 with
  | some o => some ⟨kv.1, some kv.2, orUnknown o.sheetName, orUnknown o.columnName⟩
  | none => some ⟨kv.1, some kv.2, "UNKNOWN", "UNKNOWN"⟩

/-- `save_id_map(idmap)`: the serialized v2 shape (records sorted by id,
origins defaulted to `"UNKNOWN"`). -/
def save_id_map (m : IdMap) : RawFile :=
  ⟨some m.next, RawTags.records ((sortById m.tags).map (saveRecord m.origins))⟩

/-- `main()` from the point where the store is already loaded: run the
file loop, then save (the `finally:` block runs on success and on an
escaping exception alike). -/
def mainRunFromStore (m : IdMap) (files : List ExcelFileData) :
    RawFile × List (String × List SheetOutput) × Bool :=
  let r := runFiles files m
  (save_id_map r.1, r.2.1, r.2.2)

/-- The tag → identifier pairs readable from a persisted file. -/
def savedPairs (r : RawFile) : List (String × Int) :=
  match r.tags with
  | RawTags.absent => []
  | RawTags.flat es =>
    es.foldr (fun kv acc => match kv.2 with | some v => (kv.1, v) :: acc | none => acc) []
  | RawTags.records es =>
    es.foldr (fun e acc =>
      match e with
      | some it => match it.tagInt with | some v => (it.tagString, v) :: acc | none => acc
      | none => acc) []

/-- No two distinct tags map to the same identifier (spec invariant I1),
stated over the raw binding list. -/
def TagsInjective (l : List (String × Int)) : Prop :=
  ∀ p ∈ l, ∀ q ∈ l, p.1 ≠ q.1 → p.2 ≠ q.2

instance : DecidablePred TagsInjective := fun l =>
  inferInstanceAs (Decidable (∀ p ∈ l, ∀ q ∈ l, p.1 ≠ q.1 → p.2 ≠ q.2))

/-- `setOriginList l tag ns nc = l`: a further `_set_origin_if_needed` call
with these arguments is a no-op on the origins dict. -/
def OriginsStable (l : List (String × Origin)) (tag ns nc : String) : Prop :=
  setOriginList l tag ns nc = l

/-- `Evolved m m'`: the store `m'` arises from `m` by resolver steps — tags
only ever get appended, and any origin binding that a repeat
`_set_origin_if_needed` call would leave unchanged stays that way. -/
structure Evolved (m m' : IdMap) : Prop where
  tagsExt : ∃ e, m'.tags = m.tags ++ e
  stableMono : ∀ tag ns nc, OriginsStable m.origins tag ns nc →
    OriginsStable m'.origins tag ns nc
  nextLe : m.next ≤ m'.next
  injPres : TagsInjective m.tags → TagsInjective m'.tags

/-! ## Association-list lemmas -/

theorem alookup_append_left {α : Type} {l : List (String × α)} {k : String} {v : α}
    (h : alookup l k = some v) (e : List (String × α)) : alookup (l ++ e) k = some v := by
  induction l with
  | nil => simp [alookup] at h
  | cons p rest ih =>
    obtain ⟨a, b⟩ := p
    simp only [alookup, List.cons_append] at h ⊢
    split at h
    · simp_all
    · simp only [*, if_neg]
      exact ih h

theorem alookup_append_none {α : Type} {l : List (String × α)} {k : String}
    (h : alookup l k = none) (e : List (String × α)) : alookup (l ++ e) k = alookup e k := by
  induction l with
  | nil => simp
  | cons p rest ih =>
    obtain ⟨a, b⟩ := p
    simp only [alookup, List.cons_append] at h ⊢
    split at h
    · exact absurd h (by simp)
    · simp only [*, if_neg]
      exact ih h

theorem alookup_dictInsert_self {α : Type} (l : List (String × α)) (k : String) (v : α) :
    alookup (dictInsert l k v) k = some v := by
  induction l with
  | nil => simp [dictInsert, alookup]
  | cons p rest ih =>
    obtain ⟨a, b⟩ := p
    by_cases h : a = k <;> simp [dictInsert, alookup, h, ih]

theorem alookup_dictInsert_ne {α : Type} (l : List (String × α)) (k k' : String) (v : α)
    (h : k ≠ k') : alookup (dictInsert l k v) k' = alookup l k' := by
  induction l with
  | nil => simp [dictInsert, alookup, h]
  | cons p rest ih =>
    obtain ⟨a, b⟩ := p
    by_cases ha : a = k <;> simp [dictInsert, alookup, ha, h, ih]

theorem dictInsert_absent {α : Type} {l : List (String × α)} {k : String}
    (h : alookup l k = none) (v : α) : dictInsert l k v = l ++ [(k, v)] := by
  induction l with
  | nil => simp [dictInsert]
  | cons p rest ih =>
    obtain ⟨a, b⟩ := p
    simp only [alookup] at h
    split at h
    · exact absurd h (by simp)
    · simp only [dictInsert, List.cons_append]
      rw [if_neg (by assumption)]
      rw [ih h]

theorem alookup_updateOrigin_eq {l : List (String × Origin)} {k : String}
    (h : (alookup l k).isSome) (v : Origin) : alookup (updateOrigin l k v) k = some v := by
  induction l with
  | nil => simp [alookup] at h
  | cons p rest ih =>
    obtain ⟨a, b⟩ := p
    simp only [alookup] at h
    by_cases ha : a = k
    · simp [updateOrigin, alookup, ha]
    · simp only [updateOrigin, alookup, if_neg ha] at h ⊢
      exact ih h

theorem alookup_updateOrigin_ne (l : List (String × Origin)) (k k' : String) (v : Origin)
    (h : k ≠ k') : alookup (updateOrigin l k v) k' = alookup l k' := by
  induction l with
  | nil => simp [updateOrigin]
  | cons p rest ih =>
    obtain ⟨a, b⟩ := p
    by_cases ha : a = k
    · subst ha
      simp [updateOrigin, alookup, h, ih]
    · simp [updateOrigin, alookup, ha, ih]

theorem updateOrigin_self {l : List (String × Origin)} {k : String} {o : Origin}
    (h : alookup l k = some o) : updateOrigin l k o = l := by
  induction l with
  | nil => simp [updateOrigin]
  | cons p rest ih =>
    obtain ⟨a, b⟩ := p
    simp only [alookup] at h
    by_cases ha : a = k
    · subst ha
      simp only [if_pos rfl] at h
      injection h with h
      simp [updateOrigin, h]
    · simp only [if_neg ha] at h
      simp [updateOrigin, ha, ih h]

theorem updateOrigin_eq_self {l : List (String × Origin)} {k : String} {o v : Origin}
    (hl : alookup l k = some o) (h : updateOrigin l k v = l) : v = o := by
  induction l with
  | nil => simp [alookup] at hl
  | cons p rest ih =>
    obtain ⟨a, b⟩ := p
    simp only [alookup] at hl
    by_cases ha : a = k
    · subst ha
      simp only [if_pos rfl] at hl
      injection hl with hl
      simp only [updateOrigin, if_pos rfl] at h
      have := congrArg (fun l => l.head? ) h
      simp at this
      rw [this, hl]
    · simp only [if_neg ha] at hl
      simp only [updateOrigin, if_neg ha] at h
      have := congrArg (fun l => l.tail) h
      simp at this
      exact ih hl this

/-! ## Allocator lemmas -/

theorem allocLoop_ge (taken : List Int) : ∀ (fuel : Nat) (nxt : Int),
    nxt ≤ allocLoop taken fuel nxt := by
  intro fuel
  induction fuel with
  | zero => intro nxt; simp [allocLoop]
  | succ f ih =>
    intro nxt
    simp only [allocLoop]
    split
    · exact le_trans (by omega) (ih (nxt + 1))
    · exact le_refl _

theorem allocLoop_min (taken : List Int) : ∀ (fuel : Nat) (nxt x : Int),
    nxt ≤ x → x < allocLoop taken fuel nxt → x ∈ taken := by
  intro fuel
  induction fuel with
  | zero =>
    intro nxt x hle hlt
    simp only [allocLoop] at hlt
    omega
  | succ f ih =>
    intro nxt x hle hlt
    simp only [allocLoop] at hlt
    split at hlt
    · rcases eq_or_lt_of_le hle with h | h
      · subst h; assumption
      · exact ih (nxt + 1) x (by omega) hlt
    · omega

theorem allocLoop_not_mem (taken : List Int) : ∀ (fuel : Nat) (nxt : Int),
    (taken.toFinset.filter (fun x => nxt ≤ x)).card ≤ fuel →
    allocLoop taken fuel nxt ∉ taken := by
  intro fuel
  induction fuel with
  | zero =>
    intro nxt hcard
    simp only [allocLoop]
    intro hmem
    have : nxt ∈ taken.toFinset.filter (fun x => nxt ≤ x) := by
      simp [List.mem_toFinset, hmem]
    have := Finset.card_pos.mpr ⟨nxt, this⟩
    omega
  | succ f ih =>
    intro nxt hcard
    simp only [allocLoop]
    split
    · apply ih (nxt + 1)
      have hmem : nxt ∈ taken.toFinset.filter (fun x => nxt ≤ x) := by
        simp [List.mem_toFinset]; assumption
      have herase : taken.toFinset.filter (fun x => nxt + 1 ≤ x) =
          (taken.toFinset.filter (fun x => nxt ≤ x)).erase nxt := by
        ext x
        simp only [Finset.mem_filter, Finset.mem_erase, List.mem_toFinset]
        constructor
        · intro ⟨hx, hge⟩
          exact ⟨by omega, hx, by omega⟩
        · intro ⟨hne, hx, hge⟩
          exact ⟨hx, by rcases lt_or_eq_of_le hge with h | h; omega; omega⟩
      rw [herase]
      have := Finset.card_erase_of_mem hmem
      omega
    · assumption

theorem alloc_spec (m : IdMap) :
    m.next ≤ (_alloc_next_free m).1 ∧
    (_alloc_next_free m).1 ∉ m.tags.map Prod.snd ∧
    (∀ x : Int, m.next ≤ x → x < (_alloc_next_free m).1 → x ∈ m.tags.map Prod.snd) ∧
    (_alloc_next_free m).2 = { m with next := (_alloc_next_free m).1 + 1 } := by
  refine ⟨allocLoop_ge _ _ _, ?_, fun x hx hlt => allocLoop_min _ _ _ _ hx hlt, rfl⟩
  apply allocLoop_not_mem
  calc ((m.tags.map Prod.snd).toFinset.filter (fun x => m.next ≤ x)).card
      ≤ (m.tags.map Prod.snd).toFinset.card := Finset.card_filter_le _ _
    _ ≤ (m.tags.map Prod.snd).length := (m.tags.map Prod.snd).toFinset_card_le

/-! ## `strip` lemmas -/

theorem dropWhile_idem (p : Char → Bool) (l : List Char) :
    (l.dropWhile p).dropWhile p = l.dropWhile p := by
  induction l with
  | nil => simp
  | cons c rest ih =>
    by_cases h : p c
    · simp [List.dropWhile_cons, h, ih]
    · simp [List.dropWhile_cons, h]

theorem dropWhile_exists_front (p : Char → Bool) (l : List Char) :
    ∃ pre, l = pre ++ l.dropWhile p := by
  induction l with
  | nil => exact ⟨[], rfl⟩
  | cons c rest ih =>
    by_cases h : p c
    · obtain ⟨pre, hpre⟩ := ih
      exact ⟨c :: pre, by simp [List.dropWhile_cons, h, ← hpre]⟩
    · exact ⟨[], by simp [List.dropWhile_cons, h]⟩

theorem dropWhile_front_eq (p : Char → Bool) :
    ∀ (r t : List Char), (r ++ t).dropWhile p = r ++ t → r.dropWhile p = r := by
  intro r t h
  cases r with
  | nil => simp
  | cons c r' =>
    have hc : p c = false := by
      by_contra hpc
      have hpc' : p c = true := by revert hpc; cases p c <;> simp
      rw [List.cons_append, List.dropWhile_cons, if_pos hpc'] at h
      have hle := (List.dropWhile_sublist (l := r' ++ t) p).length_le
      rw [h] at hle
      simp at hle
    simp [List.dropWhile_cons, hc]

theorem stripChars_idem (cs : List Char) : stripChars (stripChars cs) = stripChars cs := by
  set u := cs.dropWhile Char.isWhitespace with hu_def
  have hu : u.dropWhile Char.isWhitespace = u := dropWhile_idem _ _
  set w := u.reverse.dropWhile Char.isWhitespace with hw_def
  have hw : w.dropWhile Char.isWhitespace = w := dropWhile_idem _ _
  have hsc : stripChars cs = w.reverse := rfl
  obtain ⟨pre, hpre⟩ := dropWhile_exists_front Char.isWhitespace u.reverse
  have hu2 : u = w.reverse ++ pre.reverse := by
    have := congrArg List.reverse hpre
    simpa using this
  have hfront : w.reverse.dropWhile Char.isWhitespace = w.reverse := by
    apply dropWhile_front_eq Char.isWhitespace w.reverse pre.reverse
    rw [← hu2]; exact hu
  rw [hsc]
  show ((w.reverse.dropWhile Char.isWhitespace).reverse.dropWhile Char.isWhitespace).reverse
      = w.reverse
  rw [hfront]
  simp [hw]

theorem pyStrip_idem (s : String) : pyStrip (pyStrip s) = pyStrip s :=
  congrArg String.mk (stripChars_idem s.data)

theorem mem_stripChars {c : Char} {l : List Char} (h : c ∈ stripChars l) : c ∈ l := by
  unfold stripChars at h
  rw [List.mem_reverse] at h
  have h1 := (List.dropWhile_sublist Char.isWhitespace).subset h
  rw [List.mem_reverse] at h1
  exact (List.dropWhile_sublist Char.isWhitespace).subset h1

/-! ## Origin-refinement lemmas -/

theorem refineField_stable_mono {a na : String} (na' : String)
    (h : refineField a na = a) : refineField (refineField a na') na = refineField a na' := by
  unfold refineField at h ⊢
  by_cases h1 : a = "UNKNOWN" <;> by_cases h2 : na = "UNKNOWN" <;>
    by_cases h3 : na' = "UNKNOWN" <;> simp_all

theorem refineOrigin_stable_mono (o : Origin) (ns nc ns' nc' : String)
    (h : refineOrigin o ns nc = o) :
    refineOrigin (refineOrigin o ns' nc') ns nc = refineOrigin o ns' nc' := by
  have h1 : refineField o.sheetName ns = o.sheetName := congrArg Origin.sheetName h
  have h2 : refineField o.columnName nc = o.columnName := congrArg Origin.columnName h
  unfold refineOrigin at *
  simp only [Origin.mk.injEq]
  exact ⟨refineField_stable_mono ns' h1, refineField_stable_mono nc' h2⟩

theorem setOriginList_absent {l : List (String × Origin)} {tag : String}
    (h : alookup l tag = none) (ns nc : String) :
    setOriginList l tag ns nc = l ++ [(tag, ⟨ns, nc⟩)] := by
  simp [setOriginList, h]

theorem setOriginList_present {l : List (String × Origin)} {tag : String} {o : Origin}
    (h : alookup l tag = some o) (ns nc : String) :
    setOriginList l tag ns nc = updateOrigin l tag (refineOrigin o ns nc) := by
  simp [setOriginList, h]

theorem refineOrigin_idem (o : Origin) (ns nc : String) :
    refineOrigin (refineOrigin o ns nc) ns nc = refineOrigin o ns nc := by
  unfold refineOrigin refineField
  simp only [Origin.mk.injEq]
  constructor <;> split <;> simp_all

theorem originsStable_iff (l : List (String × Origin)) (tag ns nc : String) :
    OriginsStable l tag ns nc ↔
    ∃ o, alookup l tag = some o ∧ refineOrigin o ns nc = o := by
  constructor
  · intro h
    cases hl : alookup l tag with
    | none =>
      unfold OriginsStable at h
      rw [setOriginList_absent hl] at h
      have := congrArg List.length h
      simp at this
    | some o =>
      unfold OriginsStable at h
      rw [setOriginList_present hl] at h
      exact ⟨o, rfl, updateOrigin_eq_self hl h⟩
  · intro ⟨o, hl, hr⟩
    unfold OriginsStable
    rw [setOriginList_present hl, hr]
    exact updateOrigin_self hl

theorem originsStable_after (l : List (String × Origin)) (tag ns nc : String) :
    OriginsStable (setOriginList l tag ns nc) tag ns nc := by
  rw [originsStable_iff]
  cases hl : alookup l tag with
  | none =>
    refine ⟨⟨ns, nc⟩, ?_, ?_⟩
    · rw [setOriginList_absent hl, alookup_append_none hl]
      simp [alookup]
    · unfold refineOrigin refineField
      by_cases h : ns = "UNKNOWN" <;> by_cases h' : nc = "UNKNOWN" <;> simp_all
  | some o =>
    refine ⟨refineOrigin o ns nc, ?_, refineOrigin_idem o ns nc⟩
    rw [setOriginList_present hl]
    exact alookup_updateOrigin_eq (by simp [hl]) _

theorem originsStable_mono {l : List (String × Origin)} {tag ns nc : String}
    (tag' ns' nc' : String) (h : OriginsStable l tag ns nc) :
    OriginsStable (setOriginList l tag' ns' nc') tag ns nc := by
  rw [originsStable_iff] at h ⊢
  obtain ⟨o, hl, hr⟩ := h
  by_cases ht : tag' = tag
  · subst ht
    rw [setOriginList_present hl]
    exact ⟨refineOrigin o ns' nc', alookup_updateOrigin_eq (by simp [hl]) _,
      refineOrigin_stable_mono o ns nc ns' nc' hr⟩
  · cases hl' : alookup l tag' with
    | none =>
      rw [setOriginList_absent hl']
      exact ⟨o, alookup_append_left hl _, hr⟩
    | some o' =>
      rw [setOriginList_present hl']
      refine ⟨o, ?_, hr⟩
      rw [alookup_updateOrigin_ne _ _ _ _ ht]
      exact hl

/-! ## The evolution preorder on stores during a run -/

theorem tagsInjective_append {l : List (String × Int)} {tag : String} {i : Int}
    (hinj : TagsInjective l) (hi : i ∉ l.map Prod.snd) :
    TagsInjective (l ++ [(tag, i)]) := by
  intro p hp q hq hne
  rcases List.mem_append.mp hp with hp | hp <;> rcases List.mem_append.mp hq with hq | hq
  · exact hinj p hp q hq hne
  · simp only [List.mem_singleton] at hq
    subst hq
    intro he
    have he' : p.2 = i := he
    exact hi (he' ▸ List.mem_map_of_mem Prod.snd hp)
  · simp only [List.mem_singleton] at hp
    subst hp
    intro he
    have he' : q.2 = i := he.symm
    exact hi (he' ▸ List.mem_map_of_mem Prod.snd hq)
  · simp only [List.mem_singleton] at hp hq
    subst hp
    subst hq
    exact absurd rfl hne

theorem Evolved.refl (m : IdMap) : Evolved m m :=
  ⟨⟨[], by simp⟩, fun _ _ _ h => h, le_refl _, fun h => h⟩

theorem Evolved.trans {m1 m2 m3 : IdMap} (h1 : Evolved m1 m2) (h2 : Evolved m2 m3) :
    Evolved m1 m3 := by
  obtain ⟨⟨e1, he1⟩, hs1, hn1, hi1⟩ := h1
  obtain ⟨⟨e2, he2⟩, hs2, hn2, hi2⟩ := h2
  exact ⟨⟨e1 ++ e2, by rw [he2, he1, List.append_assoc]⟩,
    fun tag ns nc h => hs2 tag ns nc (hs1 tag ns nc h), le_trans hn1 hn2,
    fun h => hi2 (hi1 h)⟩

theorem evolved_set_origin (m : IdMap) (tag sheet col : String) :
    Evolved m (_set_origin_if_needed m tag sheet col) :=
  ⟨⟨[], by simp [_set_origin_if_needed]⟩,
   fun t ns nc h => originsStable_mono _ _ _ h, le_refl _, fun h => h⟩

theorem set_origin_stable {m : IdMap} {tag sheet col : String}
    (h : OriginsStable m.origins tag (normName sheet) (normName col)) :
    _set_origin_if_needed m tag sheet col = m := by
  unfold _set_origin_if_needed
  rw [h]

/-! ## Case equations and evolution facts for `map_token_to_global_id` -/

theorem map_token_hit {m : IdMap} {token g : String} (sheet col : String) {v : Int}
    (hm : ID_TAG_RE_match token = some g) (hl : alookup m.tags (pyStrip g) = some v) :
    map_token_to_global_id m token sheet col =
      some ((v, true), _set_origin_if_needed m (pyStrip g) sheet col) := by
  unfold map_token_to_global_id
  rw [hm]
  simp only [hl]

theorem map_token_miss {m : IdMap} {token g : String} (sheet col : String)
    (hm : ID_TAG_RE_match token = some g) (hl : alookup m.tags (pyStrip g) = none) :
    map_token_to_global_id m token sheet col =
      some (((_alloc_next_free m).1, true),
        _set_origin_if_needed
          { (_alloc_next_free m).2 with
            tags := (_alloc_next_free m).2.tags ++ [(pyStrip g, (_alloc_next_free m).1)] }
          (pyStrip g) sheet col) := by
  unfold map_token_to_global_id
  rw [hm]
  simp only [hl]
  rw [show ((_alloc_next_free m).2).tags = m.tags from rfl, dictInsert_absent hl]

theorem map_token_lit {m : IdMap} {token : String} (sheet col : String)
    (hm : ID_TAG_RE_match token = none) :
    map_token_to_global_id m token sheet col =
      (_must_int token).map (fun n => ((n, false), m)) := by
  unfold map_token_to_global_id
  rw [hm]
  cases _must_int token <;> simp

theorem evolved_map_token {m m' : IdMap} {token sheet col : String} {v : Int} {t : Bool}
    (h : map_token_to_global_id m token sheet col = some ((v, t), m')) : Evolved m m' := by
  cases hm : ID_TAG_RE_match token with
  | some g =>
    cases hl : alookup m.tags (pyStrip g) with
    | some w =>
      rw [map_token_hit sheet col hm hl] at h
      injection h with h
      injection h with h1 h2
      rw [← h2]
      exact evolved_set_origin _ _ _ _
    | none =>
      rw [map_token_miss sheet col hm hl] at h
      injection h with h
      injection h with h1 h2
      rw [← h2]
      refine Evolved.trans ?_ (evolved_set_origin _ _ _ _)
      refine ⟨⟨[(pyStrip g, (_alloc_next_free m).1)], rfl⟩, fun _ _ _ hs => hs, ?_, ?_⟩
      · show m.next ≤ (_alloc_next_free m).1 + 1
        have := (alloc_spec m).1
        omega
      · intro hinj
        show TagsInjective (m.tags ++ [(pyStrip g, (_alloc_next_free m).1)])
        exact tagsInjective_append hinj (alloc_spec m).2.1
  | none =>
    rw [map_token_lit sheet col hm] at h
    cases hmi : _must_int token with
    | none => rw [hmi] at h; simp at h
    | some n =>
      rw [hmi] at h
      simp at h
      rw [← h.2]
      exact Evolved.refl m

theorem evolved_map_cell {m m' : IdMap} {sheet col : String} {x : Option String}
    {v : Int} {t : Bool}
    (h : map_cell m sheet col x = some ((v, t), m')) : Evolved m m' := by
  simp only [map_cell] at h
  split at h
  · simp only [Option.some.injEq, Prod.mk.injEq] at h
    exact h.2 ▸ Evolved.refl m
  · exact evolved_map_token h

/-! ## Replay: reprocessing a cell against any later store is a no-op -/

theorem map_cell_replay {m m' mF : IdMap} {sheet col : String} {x : Option String}
    {v : Int} {t : Bool}
    (h : map_cell m sheet col x = some ((v, t), m')) (hev : Evolved m' mF) :
    map_cell mF sheet col x = some ((v, t), mF) := by
  simp only [map_cell] at h ⊢
  split at h
  · simp_all
  · rename_i hne
    rw [if_neg hne]
    cases hm : ID_TAG_RE_match (cellToStr x) with
    | some g =>
      cases hl : alookup m.tags (pyStrip g) with
      | some w =>
        rw [map_token_hit sheet col hm hl] at h
        simp only [Option.some.injEq, Prod.mk.injEq] at h
        obtain ⟨⟨hv, ht⟩, h2⟩ := h
        have hm'tags : m'.tags = m.tags := by rw [← h2]; rfl
        obtain ⟨e, he⟩ := hev.tagsExt
        have hlF : alookup mF.tags (pyStrip g) = some w := by
          rw [he, hm'tags]
          exact alookup_append_left hl e
        rw [map_token_hit sheet col hm hlF]
        have hstab : OriginsStable m'.origins (pyStrip g) (normName sheet) (normName col) := by
          rw [← h2]
          exact originsStable_after m.origins _ _ _
        rw [set_origin_stable (hev.stableMono _ _ _ hstab), hv, ht]
      | none =>
        rw [map_token_miss sheet col hm hl] at h
        simp only [Option.some.injEq, Prod.mk.injEq] at h
        obtain ⟨⟨hv, ht⟩, h2⟩ := h
        have hm'tags : m'.tags = m.tags ++ [(pyStrip g, (_alloc_next_free m).1)] := by
          rw [← h2]; rfl
        obtain ⟨e, he⟩ := hev.tagsExt
        have hlF : alookup mF.tags (pyStrip g) = some (_alloc_next_free m).1 := by
          rw [he, hm'tags, List.append_assoc]
          rw [alookup_append_none hl]
          simp [alookup]
        rw [map_token_hit sheet col hm hlF]
        have hstab : OriginsStable m'.origins (pyStrip g) (normName sheet) (normName col) := by
          rw [← h2]
          exact originsStable_after _ _ _ _
        rw [set_origin_stable (hev.stableMono _ _ _ hstab), hv, ht]
    | none =>
      rw [map_token_lit sheet col hm] at h ⊢
      cases hmi : _must_int (cellToStr x) with
      | none => simp [hmi] at h
      | some n =>
        simp only [hmi, Option.map_some', Option.some.injEq, Prod.mk.injEq] at h ⊢
        exact ⟨h.1, trivial⟩

theorem resolveColumnAux_evolved (sheet col : String) :
    ∀ (cells : List (Option String)) (m : IdMap) (tagged : Bool) (acc : List Int),
    Evolved m (resolveColumnAux sheet col cells m tagged acc).1 := by
  intro cells
  induction cells with
  | nil => intro m tagged acc; exact Evolved.refl m
  | cons x rest ih =>
    intro m tagged acc
    simp only [resolveColumnAux]
    cases hc : map_cell m sheet col x with
    | none => exact Evolved.refl m
    | some r =>
      obtain ⟨⟨v, wasTag⟩, m'⟩ := r
      exact Evolved.trans (evolved_map_cell hc) (ih m' (tagged || wasTag) (v :: acc))

theorem resolveColumnAux_replay {sheet col : String} :
    ∀ (cells : List (Option String)) (m m1 mF : IdMap) (tagged t1 : Bool)
      (acc out : List Int),
    resolveColumnAux sheet col cells m tagged acc = (m1, t1, some out) →
    Evolved m1 mF →
    resolveColumnAux sheet col cells mF tagged acc = (mF, t1, some out) := by
  intro cells
  induction cells with
  | nil =>
    intro m m1 mF tagged t1 acc out h hev
    simp only [resolveColumnAux, Prod.mk.injEq, Option.some.injEq] at h ⊢
    exact ⟨trivial, h.2.1, h.2.2⟩
  | cons x rest ih =>
    intro m m1 mF tagged t1 acc out h hev
    have hsome : ∃ r, map_cell m sheet col x = some r := by
      cases hc : map_cell m sheet col x with
      | none => simp only [resolveColumnAux, hc] at h; simp at h
      | some r => exact ⟨r, rfl⟩
    obtain ⟨⟨⟨v, wasTag⟩, m'⟩, hc⟩ := hsome
    have h' : resolveColumnAux sheet col rest m' (tagged || wasTag) (v :: acc) =
        (m1, t1, some out) := by
      simp only [resolveColumnAux, hc] at h
      exact h
    have hm'm1 : Evolved m' m1 := by
      have he2 := resolveColumnAux_evolved sheet col rest m' (tagged || wasTag) (v :: acc)
      rw [h'] at he2
      exact he2
    have hrep := map_cell_replay hc (hm'm1.trans hev)
    simp only [resolveColumnAux, hrep]
    exact ih m' m1 mF (tagged || wasTag) t1 (v :: acc) out h' hev

theorem resolvePlaceholdersGo_evolved (sheet : String) (types0 : List (String × Option String)) :
    ∀ (cols : List (String × List (Option String))) (m : IdMap)
      (accC : List (String × CellsOut)) (accM : List String),
    Evolved m (resolvePlaceholdersGo sheet types0 cols m accC accM).1 := by
  intro cols
  induction cols with
  | nil => intro m accC accM; exact Evolved.refl m
  | cons p rest ih =>
    intro m accC accM
    obtain ⟨col, cells⟩ := p
    simp only [resolvePlaceholdersGo]
    split
    · cases hr : resolveColumn m sheet col cells with
    | mk m' r =>
      obtain ⟨tagged, ores⟩ := r
      have hev1 : Evolved m m' := by
        have := resolveColumnAux_evolved sheet col cells m false []
        unfold resolveColumn at hr
        rw [hr] at this
        exact this
      cases ores with
      | some vals => exact hev1.trans (ih m' _ _)
      | none => exact hev1
    · exact ih m _ _

theorem resolvePlaceholdersGo_replay (sheet : String) (types0 : List (String × Option String)) :
    ∀ (cols : List (String × List (Option String))) (m m1 mF : IdMap)
      (accC outs : List (String × CellsOut)) (accM mapped : List String),
    resolvePlaceholdersGo sheet types0 cols m accC accM = (m1, some (outs, mapped)) →
    Evolved m1 mF →
    resolvePlaceholdersGo sheet types0 cols mF accC accM = (mF, some (outs, mapped)) := by
  intro cols
  induction cols with
  | nil =>
    intro m m1 mF accC outs accM mapped h hev
    simp only [resolvePlaceholdersGo, Prod.mk.injEq, Option.some.injEq] at h ⊢
    exact ⟨trivial, h.2⟩
  | cons p rest ih =>
    intro m m1 mF accC outs accM mapped h hev
    obtain ⟨col, cells⟩ := p
    by_cases hb : base_type_of (lookupType types0 col) = "int" ∨
        base_type_of (lookupType types0 col) = "long"
    · have hsome : ∃ m' tg vals, resolveColumn m sheet col cells = (m', tg, some vals) := by
        cases hr : resolveColumn m sheet col cells with
      | mk m' r =>
        obtain ⟨tg, ores⟩ := r
        cases ores with
        | some vals => exact ⟨m', tg, vals, rfl⟩
        | none =>
          simp only [resolvePlaceholdersGo, if_pos hb, hr] at h
          simp at h
      obtain ⟨m', tg, vals, hr⟩ := hsome
      have h' : resolvePlaceholdersGo sheet types0 rest m' ((col, CellsOut.nums vals) :: accC)
          (if tg then col :: accM else accM) = (m1, some (outs, mapped)) := by
        simp only [resolvePlaceholdersGo, if_pos hb, hr] at h
        exact h
      have hm'm1 : Evolved m' m1 := by
        have he2 := resolvePlaceholdersGo_evolved sheet types0 rest m'
          ((col, CellsOut.nums vals) :: accC) (if tg then col :: accM else accM)
        rw [h'] at he2
        exact he2
      have hrep : resolveColumn mF sheet col cells = (mF, tg, some vals) := by
        unfold resolveColumn at hr ⊢
        exact resolveColumnAux_replay cells m m' mF false tg [] vals hr (hm'm1.trans hev)
      simp only [resolvePlaceholdersGo, if_pos hb, hrep]
      exact ih m' m1 mF ((col, CellsOut.nums vals) :: accC) outs
        (if tg then col :: accM else accM) mapped h' hev
    · have h' : resolvePlaceholdersGo sheet types0 rest m
          ((col, CellsOut.raw (cells.map (fun x => x.getD ""))) :: accC) accM =
          (m1, some (outs, mapped)) := by
        simp only [resolvePlaceholdersGo, if_neg hb] at h
        exact h
      simp only [resolvePlaceholdersGo, if_neg hb]
      exact ih m m1 mF _ outs accM mapped h' hev

/-- On success, `resolve_placeholders_for_numeric_columns` only evolves
the store (tags appended, origins refined monotonically, `_next`
non-decreasing); this also holds on the store returned at the point of a
raised exception. -/
theorem resolve_placeholders_evolved (m : IdMap) (sheet : String)
    (types : List (String × Option String)) (cols : List (String × List (Option String))) :
    Evolved m (resolve_placeholders_for_numeric_columns m sheet types cols).1 := by
  unfold resolve_placeholders_for_numeric_columns
  cases hg : resolvePlaceholdersGo sheet types cols m [] [] with
  | mk m' r =>
    have := resolvePlaceholdersGo_evolved sheet types cols m [] []
    rw [hg] at this
    cases r with
    | none => exact this
    | some pr => obtain ⟨a, b⟩ := pr; exact this

/-- C7: Running the resolver a second time over the same column inputs with
the store produced by the first run yields the identical store (no new
allocations, same origins, same allocation cursor) and identical resolved
outputs (types annotation and rewritten columns). -/
theorem c7_resolver_idempotent {m m1 : IdMap} {sheet : String}
    {types types' : List (String × Option String)}
    {cols : List (String × List (Option String))} {outs : List (String × CellsOut)}
    (h : resolve_placeholders_for_numeric_columns m sheet types cols =
      (m1, some (types', outs))) :
    resolve_placeholders_for_numeric_columns m1 sheet types cols =
      (m1, some (types', outs)) := by
  unfold resolve_placeholders_for_numeric_columns at h ⊢
  cases hg : resolvePlaceholdersGo sheet types cols m [] [] with
  | mk mg r =>
    rw [hg] at h
    cases r with
    | none => simp at h
    | some pr =>
      obtain ⟨outsAcc, mapped⟩ := pr
      simp only [Prod.mk.injEq, Option.some.injEq] at h
      have hm := h.1
      have hty := h.2.1
      have ho := h.2.2
      rw [hm] at hg
      have hrep := resolvePlaceholdersGo_replay sheet types cols m m1 m1 [] outsAcc []
        mapped hg (Evolved.refl m1)
      rw [hrep]
      show (m1, some (applyMarkers types mapped, outsAcc)) = (m1, some (types', outs))
      rw [hty, ho]

/-- Witness for C7: Scenario A's column (`["[Sword]", "[Shield]", "5"]` on an
empty store with threshold 1000000) reprocessed against the produced store
yields the same store and outputs. -/
theorem c7_resolver_idempotent_witness :
    resolve_placeholders_for_numeric_columns
      ⟨[("Sword", 1000000), ("Shield", 1000001)],
       [("Sword", ⟨"S", "A"⟩), ("Shield", ⟨"S", "A"⟩)], 1000002⟩
      "S" [("A", some "int")] [("A", [some "[Sword]", some "[Shield]", some "5"])] =
    (⟨[("Sword", 1000000), ("Shield", 1000001)],
      [("Sword", ⟨"S", "A"⟩), ("Shield", ⟨"S", "A"⟩)], 1000002⟩,
     some ([("A", some "int;id")], [("A", CellsOut.nums [1000000, 1000001, 5])])) :=
  @c7_resolver_idempotent ⟨[], [], 1000000⟩
    ⟨[("Sword", 1000000), ("Shield", 1000001)],
     [("Sword", ⟨"S", "A"⟩), ("Shield", ⟨"S", "A"⟩)], 1000002⟩
    "S" [("A", some "int")] [("A", some "int;id")]
    [("A", [some "[Sword]", some "[Shield]", some "5"])]
    [("A", CellsOut.nums [1000000, 1000001, 5])]
    (by decide)

/-- Counterexample to C1 as stated: the legacy flat store
`{"tags": {"A": 1000005}}` (no `_next` field) loads with cursor
`ID_START = 1000000`, and `_alloc_next_free` then returns `1000000`,
not `max(existing ids, startThreshold - 1) + 1 = 1000006`; moreover two
stores with identical tag contents but different cursors allocate
differently, so the function is not determined by the tag contents alone. -/
theorem c1_counterexample :
    load_id_map (some ⟨none, RawTags.flat [("A", some 1000005)]⟩) 1000000 =
      ⟨[("A", 1000005)], [("A", ⟨"UNKNOWN", "UNKNOWN"⟩)], 1000000⟩ ∧
    (_alloc_next_free ⟨[("A", 1000005)], [("A", ⟨"UNKNOWN", "UNKNOWN"⟩)], 1000000⟩).1
      = 1000000 ∧
    (1000000 : Int) ≠ max (1000005 : Int) (1000000 - 1) + 1 ∧
    (⟨[], [], 1000000⟩ : IdMap).tags = (⟨[], [], 2000000⟩ : IdMap).tags ∧
    (_alloc_next_free ⟨[], [], 1000000⟩).1 ≠ (_alloc_next_free ⟨[], [], 2000000⟩).1 := by
  refine ⟨by decide, by decide, by decide, by decide, by decide⟩

/-- C1 (amended): `_alloc_next_free` returns the least identifier that is
at least the store's persisted `_next` cursor and not already assigned to a
tag; it is deterministic given the tag-to-identifier contents *and* the
cursor (but not given the tag contents alone). -/
theorem c1_alloc_least_free_from_cursor (m : IdMap) :
    m.next ≤ (_alloc_next_free m).1 ∧
    (_alloc_next_free m).1 ∉ m.tags.map Prod.snd ∧
    (∀ x : Int, m.next ≤ x → x < (_alloc_next_free m).1 → x ∈ m.tags.map Prod.snd) ∧
    (∀ m2 : IdMap, m2.tags.map Prod.snd = m.tags.map Prod.snd → m2.next = m.next →
      (_alloc_next_free m2).1 = (_alloc_next_free m).1) := by
  refine ⟨(alloc_spec m).1, (alloc_spec m).2.1, (alloc_spec m).2.2.1, ?_⟩
  intro m2 ht hn
  show allocLoop (m2.tags.map Prod.snd) (m2.tags.map Prod.snd).length m2.next =
    allocLoop (m.tags.map Prod.snd) (m.tags.map Prod.snd).length m.next
  rw [ht, hn]

/-- Witness for C1 (amended) at the store `{A ↦ 3}`, cursor 3: the skipped
value 3 is indeed taken, and a store with the same identifier multiset and
cursor allocates identically. -/
theorem c1_alloc_least_free_from_cursor_witness :
    ((3 : Int) ∈ (⟨[("A", 3)], [], 3⟩ : IdMap).tags.map Prod.snd) ∧
    (_alloc_next_free ⟨[("B", 3)], [], 3⟩).1 = (_alloc_next_free ⟨[("A", 3)], [], 3⟩).1 :=
  ⟨(c1_alloc_least_free_from_cursor ⟨[("A", 3)], [], 3⟩).2.2.1 3 (by decide) (by decide),
   (c1_alloc_least_free_from_cursor ⟨[("A", 3)], [], 3⟩).2.2.2 ⟨[("B", 3)], [], 3⟩
     (by decide) (by decide)⟩

/-- Counterexample to C6 as stated: on the loadable store `{A ↦ 1000005}`
with cursor 1000000, the newly allocated identifier 1000000 is *not*
strictly greater than the already-assigned identifier 1000005. -/
theorem c6_counterexample :
    (_alloc_next_free ⟨[("A", 1000005)], [("A", ⟨"UNKNOWN", "UNKNOWN"⟩)], 1000000⟩).1
      = 1000000 ∧
    ("A", (1000005 : Int)) ∈
      (⟨[("A", 1000005)], [("A", ⟨"UNKNOWN", "UNKNOWN"⟩)], 1000000⟩ : IdMap).tags ∧
    ¬ (1000005 : Int) <
      (_alloc_next_free ⟨[("A", 1000005)], [("A", ⟨"UNKNOWN", "UNKNOWN"⟩)], 1000000⟩).1 := by
  refine ⟨by decide, by decide, by decide⟩

/-- C6 (amended): every newly allocated identifier is distinct from all
already-assigned identifiers and at least the allocation cursor, and the
cursor then advances past it; since resolver steps never decrease the
cursor, identifiers allocated later in the same run are strictly greater
— but a new identifier need not exceed identifiers already in the loaded
store (the cursor may sit below them). -/
theorem c6_alloc_strictly_increasing_within_run (m : IdMap) :
    (_alloc_next_free m).1 ∉ m.tags.map Prod.snd ∧
    m.next ≤ (_alloc_next_free m).1 ∧
    ((_alloc_next_free m).2).next = (_alloc_next_free m).1 + 1 ∧
    (∀ m2 : IdMap, ((_alloc_next_free m).2).next ≤ m2.next →
      (_alloc_next_free m).1 < (_alloc_next_free m2).1) ∧
    (∀ (sheet : String) (types : List (String × Option String))
       (cols : List (String × List (Option String))),
      m.next ≤ ((resolve_placeholders_for_numeric_columns m sheet types cols).1).next) := by
  have hs := alloc_spec m
  have hnext : ((_alloc_next_free m).2).next = (_alloc_next_free m).1 + 1 := by
    rw [hs.2.2.2]
  refine ⟨hs.2.1, hs.1, hnext, ?_, ?_⟩
  · intro m2 h2
    have := (alloc_spec m2).1
    omega
  · intro sheet types cols
    exact (resolve_placeholders_evolved m sheet types cols).nextLe

/-- Witness for C6 (amended): two consecutive allocations on `{A ↦ 5}`,
cursor 3, are strictly increasing, and a resolver run only advances the
cursor. -/
theorem c6_alloc_strictly_increasing_within_run_witness :
    (_alloc_next_free ⟨[("A", 5)], [], 3⟩).1 <
      (_alloc_next_free (_alloc_next_free ⟨[("A", 5)], [], 3⟩).2).1 ∧
    (3 : Int) ≤ ((resolve_placeholders_for_numeric_columns ⟨[("A", 5)], [], 3⟩ "S"
      [("B", some "int")] [("B", [some "[T]"])]).1).next :=
  ⟨(c6_alloc_strictly_increasing_within_run ⟨[("A", 5)], [], 3⟩).2.2.2.1
     (_alloc_next_free ⟨[("A", 5)], [], 3⟩).2 (le_refl _),
   (c6_alloc_strictly_increasing_within_run ⟨[("A", 5)], [], 3⟩).2.2.2.2 "S"
     [("B", some "int")] [("B", [some "[T]"])]⟩

/-- Counterexample to C2 as stated: with run order `[bad, good]`, where
`bad` holds the non-numeric, non-placeholder cell `"abc"` in an `int`
column, the run aborts and `good` is *not* processed (no output for any
file), even though `good` alone produces output; the store is still saved.
So "files after it in the sequence are still processed" fails on the code. -/
theorem c2_counterexample :
    (mainRunFromStore ⟨[], [], 1000000⟩
      [⟨"bad", [⟨"S", [("A", some "int")], [("A", [some "abc"])]⟩]⟩,
       ⟨"good", [⟨"S", [("A", some "int")], [("A", [some "5"])]⟩]⟩]).2.1 = [] ∧
    (mainRunFromStore ⟨[], [], 1000000⟩
      [⟨"good", [⟨"S", [("A", some "int")], [("A", [some "5"])]⟩]⟩]).2.1 =
      [("good", [⟨"S", [("A", some "int")], [("A", CellsOut.nums [5])]⟩])] ∧
    (mainRunFromStore ⟨[], [], 1000000⟩
      [⟨"bad", [⟨"S", [("A", some "int")], [("A", [some "abc"])]⟩]⟩,
       ⟨"good", [⟨"S", [("A", some "int")], [("A", [some "5"])]⟩]⟩]).1 =
      save_id_map ⟨[], [], 1000000⟩ := by
  refine ⟨by decide, by decide, by decide⟩

/-- C2 (amended): a malformed literal in a numeric cell raises a
`ValueError` that `convert_excel` re-raises; `main`'s loop has no per-file
handler, so the failing file *and every file after it* go unprocessed,
while the `finally:` block still saves the tag store (with all mutations
made before the failure). -/
theorem c2_format_error_aborts_rest_but_saves (m m2 : IdMap) (f : ExcelFileData)
    (h : convert_excel m f = (m2, none)) (rest : List ExcelFileData) :
    runFiles (f :: rest) m = (m2, [], true) ∧
    mainRunFromStore m (f :: rest) = (save_id_map m2, [], true) := by
  have h1 : runFiles (f :: rest) m = (m2, [], true) := by
    simp only [runFiles, h]
  exact ⟨h1, by simp only [mainRunFromStore, h1]⟩

/-- Witness for C2 (amended): the `"abc"` file aborts a two-file run; the
second file contributes nothing and the store is saved unchanged. -/
theorem c2_format_error_aborts_rest_but_saves_witness :
    runFiles [⟨"bad", [⟨"S", [("A", some "int")], [("A", [some "abc"])]⟩]⟩,
      ⟨"good", [⟨"S", [("A", some "int")], [("A", [some "5"])]⟩]⟩] ⟨[], [], 1000000⟩ =
      (⟨[], [], 1000000⟩, [], true) ∧
    mainRunFromStore ⟨[], [], 1000000⟩
      [⟨"bad", [⟨"S", [("A", some "int")], [("A", [some "abc"])]⟩]⟩,
       ⟨"good", [⟨"S", [("A", some "int")], [("A", [some "5"])]⟩]⟩] =
      (save_id_map ⟨[], [], 1000000⟩, [], true) :=
  c2_format_error_aborts_rest_but_saves ⟨[], [], 1000000⟩ ⟨[], [], 1000000⟩
    ⟨"bad", [⟨"S", [("A", some "int")], [("A", [some "abc"])]⟩]⟩ (by decide)
    [⟨"good", [⟨"S", [("A", some "int")], [("A", [some "5"])]⟩]⟩]

theorem resolvePlaceholdersGo_all_raw (sheet : String) (types : List (String × Option String)) :
    ∀ (cols : List (String × List (Option String))) (m : IdMap)
      (accC : List (String × CellsOut)) (accM : List String),
    (∀ p ∈ cols, base_type_of (lookupType types p.1) ≠ "int" ∧
        base_type_of (lookupType types p.1) ≠ "long") →
    resolvePlaceholdersGo sheet types cols m accC accM =
      (m, some (accC.reverse ++
        cols.map (fun p => (p.1, CellsOut.raw (p.2.map (fun x => x.getD "")))),
        accM.reverse)) := by
  intro cols
  induction cols with
  | nil =>
    intro m accC accM _
    simp [resolvePlaceholdersGo]
  | cons p rest ih =>
    intro m accC accM h
    obtain ⟨col, cells⟩ := p
    have hp := h (col, cells) (List.mem_cons_self _ _)
    have hb : ¬(base_type_of (lookupType types col) = "int" ∨
        base_type_of (lookupType types col) = "long") := by
      intro hc
      rcases hc with hc | hc
      · exact hp.1 hc
      · exact hp.2 hc
    simp only [resolvePlaceholdersGo, if_neg hb]
    rw [ih m _ accM (fun q hq => h q (List.mem_cons_of_mem _ hq))]
    simp

/-- Counterexample to C3 as stated: Scenario C's free-text cell
`"Use [Sword] to fight [Shield]"`, in a `string` column, with the store
from Scenario A, is passed through completely untouched — the resolver
skips every column whose base type is not `int`/`long`, so no inline
`[tag]` replacement happens anywhere in the code. -/
theorem c3_counterexample :
    resolve_placeholders_for_numeric_columns
      ⟨[("Sword", 1000000), ("Shield", 1000001)],
       [("Sword", ⟨"S", "A"⟩), ("Shield", ⟨"S", "A"⟩)], 1000002⟩
      "S" [("Msg", some "string")] [("Msg", [some "Use [Sword] to fight [Shield]"])] =
      (⟨[("Sword", 1000000), ("Shield", 1000001)],
        [("Sword", ⟨"S", "A"⟩), ("Shield", ⟨"S", "A"⟩)], 1000002⟩,
       some ([("Msg", some "string")],
         [("Msg", CellsOut.raw ["Use [Sword] to fight [Shield]"])])) ∧
    ("Use [Sword] to fight [Shield]" : String) ≠ "Use 1000000 to fight 1000001" := by
  refine ⟨by decide, by decide⟩

/-- C3 (amended): columns whose declared base type is not `int`/`long`
(string / string-list / int-list and all other free-text types) are skipped
entirely by the resolver: the store is untouched, the types dict is
untouched, and every cell passes through unchanged (NA cells become `""`
via `fillna`); inline `[tag]` occurrences are *not* replaced. -/
theorem c3_free_text_columns_untouched (m : IdMap) (sheet : String)
    (types : List (String × Option String)) (cols : List (String × List (Option String)))
    (h : ∀ p ∈ cols, base_type_of (lookupType types p.1) ≠ "int" ∧
        base_type_of (lookupType types p.1) ≠ "long") :
    resolve_placeholders_for_numeric_columns m sheet types cols =
      (m, some (types,
        cols.map (fun p => (p.1, CellsOut.raw (p.2.map (fun x => x.getD "")))))) := by
  unfold resolve_placeholders_for_numeric_columns
  rw [resolvePlaceholdersGo_all_raw sheet types cols m [] [] h]
  simp [applyMarkers]

/-- Witness for C3 (amended): the Scenario C cell in a `string` column
passes through with its brackets intact. -/
theorem c3_free_text_columns_untouched_witness :
    resolve_placeholders_for_numeric_columns
      ⟨[("Sword", 1000000), ("Shield", 1000001)],
       [("Sword", ⟨"S", "A"⟩), ("Shield", ⟨"S", "A"⟩)], 1000002⟩
      "S" [("Msg", some "string")] [("Msg", [some "Use [Sword] to fight [Shield]"])] =
      (⟨[("Sword", 1000000), ("Shield", 1000001)],
        [("Sword", ⟨"S", "A"⟩), ("Shield", ⟨"S", "A"⟩)], 1000002⟩,
       some ([("Msg", some "string")],
         [("Msg", CellsOut.raw ["Use [Sword] to fight [Shield]"])])) :=
  c3_free_text_columns_untouched
    ⟨[("Sword", 1000000), ("Shield", 1000001)],
     [("Sword", ⟨"S", "A"⟩), ("Shield", ⟨"S", "A"⟩)], 1000002⟩
    "S" [("Msg", some "string")] [("Msg", [some "Use [Sword] to fight [Shield]"])]
    (by decide)

/-! ## Marker lemmas: `append_id_marker` always leaves the `id` flag visible -/

theorem semiSplit_cons_nil {rest : List Char} (c : Char) (hsr : semiSplit rest = []) :
    semiSplit (c :: rest) = [[]] := by
  simp only [semiSplit, hsr]

theorem semiSplit_cons_eq {rest : List Char} (c : Char) {h : List Char}
    {t : List (List Char)} (hsr : semiSplit rest = h :: t) :
    semiSplit (c :: rest) = if c = ';' then [] :: h :: t else (c :: h) :: t := by
  simp only [semiSplit, hsr]

theorem semiSplit_ne_nil (cs : List Char) : semiSplit cs ≠ [] := by
  cases cs with
  | nil => simp [semiSplit]
  | cons c rest =>
    cases hsr : semiSplit rest with
    | nil => rw [semiSplit_cons_nil c hsr]; simp
    | cons h t =>
      rw [semiSplit_cons_eq c hsr]
      split <;> simp

theorem no_semi_semiSplit (cs : List Char) : ∀ q ∈ semiSplit cs, ';' ∉ q := by
  induction cs with
  | nil =>
    intro q hq
    simp [semiSplit] at hq
    simp [hq]
  | cons c rest ih =>
    intro q hq
    cases hsr : semiSplit rest with
    | nil => rw [semiSplit_cons_nil c hsr] at hq; simp at hq; simp [hq]
    | cons h t =>
      rw [semiSplit_cons_eq c hsr] at hq
      by_cases hc : c = ';'
      · rw [if_pos hc] at hq
        rcases List.mem_cons.mp hq with hq | hq
        · simp [hq]
        · exact ih q (hsr ▸ hq)
      · rw [if_neg hc] at hq
        rcases List.mem_cons.mp hq with hq | hq
        · subst hq
          intro hmem
          rcases List.mem_cons.mp hmem with he | he
          · exact hc he.symm
          · exact ih h (hsr ▸ List.mem_cons_self h t) he
        · exact ih q (hsr ▸ List.mem_cons_of_mem h hq)

theorem semiSplit_no_semi (p : List Char) (h : ';' ∉ p) : semiSplit p = [p] := by
  induction p with
  | nil => simp [semiSplit]
  | cons c rest ih =>
    have hc : c ≠ ';' := fun he => h (he ▸ List.mem_cons_self c rest)
    have hr : ';' ∉ rest := fun hm => h (List.mem_cons_of_mem c hm)
    simp only [semiSplit, ih hr]
    rw [if_neg (fun he => hc he)]

theorem semiSplit_append_semi (p X : List Char) (h : ';' ∉ p) :
    semiSplit (p ++ ';' :: X) = p :: semiSplit X := by
  induction p with
  | nil =>
    simp only [List.nil_append, semiSplit]
    cases hsx : semiSplit X with
    | nil => exact absurd hsx (semiSplit_ne_nil X)
    | cons h t => simp
  | cons c rest ih =>
    have hc : c ≠ ';' := fun he => h (he ▸ List.mem_cons_self c rest)
    have hr : ';' ∉ rest := fun hm => h (List.mem_cons_of_mem c hm)
    rw [List.cons_append, semiSplit_cons_eq c (ih hr), if_neg hc]

theorem semiSplit_joinSemi : ∀ (ps : List (List Char)), ps ≠ [] →
    (∀ p ∈ ps, ';' ∉ p) → semiSplit (joinSemi ps) = ps := by
  intro ps
  induction ps with
  | nil => intro h; exact absurd rfl h
  | cons p rest ih =>
    intro _ hall
    cases rest with
    | nil =>
      simp only [joinSemi]
      exact semiSplit_no_semi p (hall p (List.mem_cons_self _ _))
    | cons q t =>
      simp only [joinSemi]
      rw [semiSplit_append_semi p _ (hall p (List.mem_cons_self _ _))]
      rw [ih (by simp) (fun r hr => hall r (List.mem_cons_of_mem p hr))]

theorem mem_partsOf {p : List Char} {cs : List Char} (h : p ∈ partsOf cs) :
    stripChars p = p ∧ (!p.isEmpty) = true ∧ ';' ∉ p := by
  unfold partsOf at h
  have h1 := List.mem_of_mem_filter h
  have h2 := List.of_mem_filter h
  obtain ⟨q, hq, hpq⟩ := List.mem_map.mp h1
  refine ⟨?_, h2, ?_⟩
  · rw [← hpq, stripChars_idem]
  · intro hsemi
    rw [← hpq] at hsemi
    exact no_semi_semiSplit cs q hq (mem_stripChars hsemi)

theorem list_map_self {α : Type} {f : α → α} : ∀ {l : List α}, (∀ a ∈ l, f a = a) →
    l.map f = l := by
  intro l
  induction l with
  | nil => intro _; rfl
  | cons a rest ih =>
    intro h
    simp only [List.map_cons, h a (List.mem_cons_self _ _),
      ih (fun b hb => h b (List.mem_cons_of_mem a hb))]

theorem partsOf_joinSemi (ps : List (List Char)) (hne : ps ≠ [])
    (h : ∀ p ∈ ps, stripChars p = p ∧ (!p.isEmpty) = true ∧ ';' ∉ p) :
    partsOf (joinSemi ps) = ps := by
  unfold partsOf
  rw [semiSplit_joinSemi ps hne (fun p hp => (h p hp).2.2)]
  rw [list_map_self (fun p hp => (h p hp).1)]
  exact List.filter_eq_self.mpr (fun p hp => (h p hp).2.1)

theorem contains_append_self (l : List (List Char)) (a : List Char) :
    (l ++ [a]).contains a = true := by
  have : a ∈ l ++ [a] := List.mem_append_right l (List.mem_cons_self a [])
  exact List.elem_eq_true_of_mem this

theorem hasIdMarker_append_id_marker (t : Option String) :
    hasIdMarker (some (append_id_marker t)) = true := by
  cases t with
  | none => decide
  | some s =>
    by_cases hs : s = ""
    · subst hs
      show hasIdMarker (some (append_id_marker (some ""))) = true
      decide
    · simp only [append_id_marker, if_neg hs]
      split
      · rename_i hid
        have hne : partsOf s.data ≠ [] := by
          intro he
          rw [he] at hid
          simp [List.contains] at hid
        show ((partsOf (joinSemi (partsOf s.data))).map
          (fun p => p.map Char.toLower)).contains ['i', 'd'] = true
        rw [partsOf_joinSemi _ hne (fun p hp => mem_partsOf hp)]
        exact hid
      · rename_i hid
        show ((partsOf (joinSemi (partsOf s.data ++ [['i', 'd']]))).map
          (fun p => p.map Char.toLower)).contains ['i', 'd'] = true
        have hprops : ∀ p ∈ partsOf s.data ++ [['i', 'd']],
            stripChars p = p ∧ (!p.isEmpty) = true ∧ ';' ∉ p := by
          intro p hp
          rcases List.mem_append.mp hp with hp | hp
          · exact mem_partsOf hp
          · simp at hp
            subst hp
            refine ⟨by decide, by decide, by decide⟩
        rw [partsOf_joinSemi _ (by simp) hprops]
        rw [List.map_append]
        have : (([['i', 'd']] : List (List Char)).map (fun p => p.map Char.toLower)) =
            [['i', 'd']] := by decide
        rw [this]
        exact contains_append_self _ _

theorem alookup_applyMarkers_not_mem (col : String) :
    ∀ (mapped : List String) (types : List (String × Option String)), col ∉ mapped →
    alookup (applyMarkers types mapped) col = alookup types col := by
  intro mapped
  induction mapped with
  | nil => intro types _; rfl
  | cons c rest ih =>
    intro types h
    have hc : c ≠ col := fun he => h (he ▸ List.mem_cons_self c rest)
    have hr : col ∉ rest := fun hm => h (List.mem_cons_of_mem c hm)
    simp only [applyMarkers]
    rw [ih _ hr, alookup_dictInsert_ne _ _ _ _ hc]

theorem alookup_applyMarkers_mem (col : String) :
    ∀ (mapped : List String) (types : List (String × Option String)), col ∈ mapped →
    ∃ t, alookup (applyMarkers types mapped) col = some t ∧ hasIdMarker t = true := by
  intro mapped
  induction mapped with
  | nil => intro types h; simp at h
  | cons c rest ih =>
    intro types h
    by_cases hcr : col ∈ rest
    · exact ih _ hcr
    · have hcc : col = c := by
        rcases List.mem_cons.mp h with he | he
        · exact he
        · exact absurd he hcr
      subst hcc
      simp only [applyMarkers]
      rw [alookup_applyMarkers_not_mem col rest _ hcr, alookup_dictInsert_self]
      exact ⟨_, rfl, hasIdMarker_append_id_marker _⟩

/-- Counterexample to C4 as stated: a numeric column whose incoming type
annotation already carries the `id` marker, but with only literal cells
this run, keeps the stale marker — the code never removes it. -/
theorem c4_counterexample :
    resolve_placeholders_for_numeric_columns ⟨[], [], 1000000⟩ "S"
      [("A", some "int;id")] [("A", [some "5"])] =
      (⟨[], [], 1000000⟩,
       some ([("A", some "int;id")], [("A", CellsOut.nums [5])])) ∧
    hasIdMarker (some "int;id") = true := by
  refine ⟨by decide, by decide⟩

/-- C4 (amended): after a run, every column in which at least one
placeholder was resolved carries the resolved-identifier marker in its
type annotation; a column in which none was resolved keeps its incoming
annotation verbatim — in particular a stale marker from a prior run is
*not* removed (and if no column resolved anything the types dict is
unchanged). -/
theorem c4_marker_added_never_removed (m m1 : IdMap) (sheet : String)
    (types : List (String × Option String)) (cols : List (String × List (Option String)))
    (outs : List (String × CellsOut)) (mapped : List String)
    (h : resolvePlaceholdersGo sheet types cols m [] [] = (m1, some (outs, mapped))) :
    resolve_placeholders_for_numeric_columns m sheet types cols =
      (m1, some (applyMarkers types mapped, outs)) ∧
    (∀ col ∈ mapped, ∃ t, alookup (applyMarkers types mapped) col = some t ∧
      hasIdMarker t = true) ∧
    (∀ col, col ∉ mapped →
      alookup (applyMarkers types mapped) col = alookup types col) ∧
    (mapped = [] → applyMarkers types mapped = types) := by
  refine ⟨?_, fun col hc => alookup_applyMarkers_mem col mapped types hc,
    fun col hc => alookup_applyMarkers_not_mem col mapped types hc,
    fun he => by rw [he]; rfl⟩
  unfold resolve_placeholders_for_numeric_columns
  rw [h]

/-- Witness for C4 (amended): one column resolving `[Sword]` gets the
marker; a disjoint column name keeps its annotation. -/
theorem c4_marker_added_never_removed_witness :
    resolve_placeholders_for_numeric_columns ⟨[], [], 1000000⟩ "S"
      [("A", some "int"), ("B", some "int;id")]
      [("A", [some "[Sword]"])] =
      (⟨[("Sword", 1000000)], [("Sword", ⟨"S", "A"⟩)], 1000001⟩,
       some (applyMarkers [("A", some "int"), ("B", some "int;id")] ["A"],
         [("A", CellsOut.nums [1000000])])) ∧
    (∃ t, alookup (applyMarkers [("A", some "int"), ("B", some "int;id")] ["A"]) "A" =
      some t ∧ hasIdMarker t = true) ∧
    alookup (applyMarkers [("A", some "int"), ("B", some "int;id")] ["A"]) "B" =
      alookup [("A", some "int"), ("B", some "int;id")] "B" := by
  have hh := c4_marker_added_never_removed ⟨[], [], 1000000⟩
    ⟨[("Sword", 1000000)], [("Sword", ⟨"S", "A"⟩)], 1000001⟩ "S"
    [("A", some "int"), ("B", some "int;id")] [("A", [some "[Sword]"])]
    [("A", CellsOut.nums [1000000])] ["A"] (by decide)
  exact ⟨hh.1, hh.2.1 "A" (by decide), hh.2.2.1 "B" (by decide)⟩

/-! ## Evolution through whole files and runs; permutation facts for `save` -/

theorem convert_excel_sheets_evolved :
    ∀ (sheets : List SheetData) (m : IdMap) (acc : List SheetOutput),
    Evolved m (convertSheets sheets m acc).1 := by
  intro sheets
  induction sheets with
  | nil => intro m acc; exact Evolved.refl m
  | cons s rest ih =>
    intro m acc
    simp only [convertSheets]
    split
    · exact ih m acc
    · cases hr : resolve_placeholders_for_numeric_columns m s.name s.types s.cols with
      | mk m' r =>
        have hev : Evolved m m' := by
          have := resolve_placeholders_evolved m s.name s.types s.cols
          rw [hr] at this
          exact this
        cases r with
        | some pr =>
          obtain ⟨types', outCols⟩ := pr
          exact hev.trans (ih m' (⟨s.name, types', outCols⟩ :: acc))
        | none => exact hev

theorem convert_excel_evolved (m : IdMap) (f : ExcelFileData) :
    Evolved m (convert_excel m f).1 :=
  convert_excel_sheets_evolved f.sheets m []

theorem runFiles_evolved :
    ∀ (files : List ExcelFileData) (m : IdMap), Evolved m (runFiles files m).1 := by
  intro files
  induction files with
  | nil => intro m; exact Evolved.refl m
  | cons f rest ih =>
    intro m
    simp only [runFiles]
    cases hc : convert_excel m f with
    | mk m' r =>
      have hev : Evolved m m' := by
        have := convert_excel_evolved m f
        rw [hc] at this
        exact this
      cases r with
      | some outs => exact hev.trans (ih m')
      | none => exact hev

theorem insertById_perm (p : String × Int) :
    ∀ l : List (String × Int), (insertById p l).Perm (p :: l) := by
  intro l
  induction l with
  | nil => exact List.Perm.refl _
  | cons q rest ih =>
    simp only [insertById]
    split
    · exact List.Perm.refl _
    · exact (List.Perm.cons q ih).trans (List.Perm.swap p q rest)

theorem sortById_perm (l : List (String × Int)) : (sortById l).Perm l := by
  induction l with
  | nil => exact List.Perm.refl _
  | cons p rest ih =>
    exact (insertById_perm p (sortById rest)).trans (List.Perm.cons p ih)

theorem tagsInjective_of_perm {l l' : List (String × Int)} (h : l.Perm l')
    (hinj : TagsInjective l) : TagsInjective l' :=
  fun p hp q hq hne => hinj p (h.symm.subset hp) q (h.symm.subset hq) hne

theorem saveRecord_fields (orig : List (String × Origin)) (kv : String × Int) :
    ∃ r, saveRecord orig kv = some r ∧ r.tagString = kv.1 ∧ r.tagInt = some kv.2 := by
  unfold saveRecord
  cases alookup orig kv.1 <;> exact ⟨_, rfl, rfl, rfl⟩

theorem savedPairs_records (orig : List (String × Origin)) (nv : Option Int) :
    ∀ L : List (String × Int),
    savedPairs ⟨nv, RawTags.records (L.map (saveRecord orig))⟩ = L := by
  intro L
  induction L with
  | nil => rfl
  | cons kv rest ih =>
    obtain ⟨r, hr, h1, h2⟩ := saveRecord_fields orig kv
    simp only [savedPairs, List.map_cons, List.foldr_cons] at ih ⊢
    rw [hr]
    simp only [h2, h1]
    rw [ih]

theorem savedPairs_save (m : IdMap) : savedPairs (save_id_map m) = sortById m.tags :=
  savedPairs_records m.origins (some m.next) (sortById m.tags)

/-- Counterexample to C5 as stated: a persisted v2 store with two records
sharing the identifier 5 loads as-is — `load_id_map` enforces no
injectivity, so the loaded store violates "at all times the map is
injective". -/
theorem c5_counterexample :
    ¬ TagsInjective (load_id_map (some ⟨some 1000002, RawTags.records
      [some ⟨"A", some 5, "UNKNOWN", "UNKNOWN"⟩,
       some ⟨"B", some 5, "UNKNOWN", "UNKNOWN"⟩]⟩) 1000000).tags := by
  decide

/-- C5 (amended): *provided the loaded store is injective*, injectivity of
tag → identifier is preserved by every resolution step of a run (the
allocator only issues identifiers not already assigned) and by the saved
store (which holds the same bindings, sorted); loading itself does not
enforce injectivity. -/
theorem c5_injectivity_preserved (m : IdMap) (files : List ExcelFileData)
    (hinj : TagsInjective m.tags) :
    TagsInjective ((runFiles files m).1).tags ∧
    TagsInjective (savedPairs (mainRunFromStore m files).1) := by
  have hev := runFiles_evolved files m
  refine ⟨hev.injPres hinj, ?_⟩
  show TagsInjective (savedPairs (save_id_map (runFiles files m).1))
  rw [savedPairs_save]
  exact tagsInjective_of_perm (sortById_perm _).symm (hev.injPres hinj)

/-- Witness for C5 (amended): a run allocating `Sword` and `Shield` from an
injective one-tag store keeps the store and its saved form injective. -/
theorem c5_injectivity_preserved_witness :
    TagsInjective ((runFiles
      [⟨"f", [⟨"S", [("A", some "int")], [("A", [some "[Sword]", some "[Shield]"])]⟩]⟩]
      ⟨[("Axe", 1000000)], [("Axe", ⟨"UNKNOWN", "UNKNOWN"⟩)], 1000001⟩).1).tags ∧
    TagsInjective (savedPairs (mainRunFromStore
      ⟨[("Axe", 1000000)], [("Axe", ⟨"UNKNOWN", "UNKNOWN"⟩)], 1000001⟩
      [⟨"f", [⟨"S", [("A", some "int")], [("A", [some "[Sword]", some "[Shield]"])]⟩]⟩]).1) :=
  c5_injectivity_preserved
    ⟨[("Axe", 1000000)], [("Axe", ⟨"UNKNOWN", "UNKNOWN"⟩)], 1000001⟩
    [⟨"f", [⟨"S", [("A", some "int")], [("A", [some "[Sword]", some "[Shield]"])]⟩]⟩]
    (by decide)

/-! ## Origin-refinement claim (C8) and numeric-cell semantics (C9) -/

theorem normName_fix {s : String} (hs : pyStrip s = s) (hs' : s ≠ "") :
    normName s = s := by
  unfold normName
  rw [if_neg hs']
  show (if pyStrip s = "" then "UNKNOWN" else pyStrip s) = s
  rw [hs, if_neg hs']

theorem refineOrigin_unknown (s c : String) :
    refineOrigin ⟨"UNKNOWN", "UNKNOWN"⟩ s c = ⟨s, c⟩ := by
  unfold refineOrigin refineField
  by_cases h1 : s = "UNKNOWN" <;> by_cases h2 : c = "UNKNOWN" <;> simp_all

theorem refineField_concrete {a : String} (n : String) (h : a ≠ "UNKNOWN") :
    refineField a n = a := by
  unfold refineField
  rw [if_neg]
  intro hc
  exact h hc.1

theorem map_token_origins_eq {m m' : IdMap} {token g sheet col : String} {v : Int} {t : Bool}
    (hm : ID_TAG_RE_match token = some g)
    (h : map_token_to_global_id m token sheet col = some ((v, t), m')) :
    m'.origins = setOriginList m.origins (pyStrip g) (normName sheet) (normName col) := by
  cases hl : alookup m.tags (pyStrip g) with
  | some w =>
    rw [map_token_hit sheet col hm hl] at h
    simp only [Option.some.injEq, Prod.mk.injEq] at h
    rw [← h.2]
    rfl
  | none =>
    rw [map_token_miss sheet col hm hl] at h
    simp only [Option.some.injEq, Prod.mk.injEq] at h
    rw [← h.2]
    rfl

/-- C8: for every resolution of a whole-cell placeholder (new allocation or
re-reference alike), with sheet/column names that are nonempty and already
stripped: if the tag has no recorded origin or its origin is the unknown
value, the origin is set to the current sheet and column; and a concrete
origin field of any tag is never overwritten by a different value. -/
theorem c8_origin_set_once_refined_monotonically (m m' : IdMap)
    (token g sheet col : String) (v : Int) (t : Bool)
    (hm : ID_TAG_RE_match token = some g)
    (hs : pyStrip sheet = sheet) (hs' : sheet ≠ "")
    (hc : pyStrip col = col) (hc' : col ≠ "")
    (h : map_token_to_global_id m token sheet col = some ((v, t), m')) :
    ((alookup m.origins (pyStrip g) = none ∨
      alookup m.origins (pyStrip g) = some ⟨"UNKNOWN", "UNKNOWN"⟩) →
      alookup m'.origins (pyStrip g) = some ⟨sheet, col⟩) ∧
    (∀ u o, alookup m.origins u = some o →
      ∃ o', alookup m'.origins u = some o' ∧
        (o.sheetName ≠ "UNKNOWN" → o'.sheetName = o.sheetName) ∧
        (o.columnName ≠ "UNKNOWN" → o'.columnName = o.columnName)) := by
  have horig : m'.origins = setOriginList m.origins (pyStrip g) sheet col := by
    rw [map_token_origins_eq hm h, normName_fix hs hs', normName_fix hc hc']
  constructor
  · intro hcase
    rcases hcase with hnone | hunk
    · rw [horig, setOriginList_absent hnone, alookup_append_none hnone]
      simp [alookup]
    · rw [horig, setOriginList_present hunk, refineOrigin_unknown]
      exact alookup_updateOrigin_eq (by simp [hunk]) _
  · intro u o ho
    by_cases hu : u = pyStrip g
    · subst hu
      rw [horig, setOriginList_present ho]
      refine ⟨refineOrigin o sheet col, alookup_updateOrigin_eq (by simp [ho]) _, ?_, ?_⟩
      · intro hconc
        exact refineField_concrete sheet hconc
      · intro hconc
        exact refineField_concrete col hconc
    · rw [horig]
      unfold setOriginList
      cases hl : alookup m.origins (pyStrip g) with
      | none =>
        exact ⟨o, alookup_append_left ho _, fun _ => rfl, fun _ => rfl⟩
      | some o0 =>
        refine ⟨o, ?_, fun _ => rfl, fun _ => rfl⟩
        rw [alookup_updateOrigin_ne _ _ _ _ (fun he => hu he.symm)]
        exact ho

/-- Witness for C8: resolving `[T]` on a store where `T`'s origin is the
unknown value sets it to `{S1, C1}`, while the concrete origin of `U`
survives untouched. -/
theorem c8_origin_set_once_refined_monotonically_witness :
    alookup ([("T", (⟨"S1", "C1"⟩ : Origin)), ("U", ⟨"X", "Y"⟩)]) "T" =
      some ⟨"S1", "C1"⟩ ∧
    (∃ o', alookup ([("T", (⟨"S1", "C1"⟩ : Origin)), ("U", ⟨"X", "Y"⟩)]) "U" = some o' ∧
      ((⟨"X", "Y"⟩ : Origin).sheetName ≠ "UNKNOWN" → o'.sheetName = "X") ∧
      ((⟨"X", "Y"⟩ : Origin).columnName ≠ "UNKNOWN" → o'.columnName = "Y")) := by
  have hh := c8_origin_set_once_refined_monotonically
    ⟨[("T", 1000000)], [("T", ⟨"UNKNOWN", "UNKNOWN"⟩), ("U", ⟨"X", "Y"⟩)], 1000001⟩
    ⟨[("T", 1000000)], [("T", ⟨"S1", "C1"⟩), ("U", ⟨"X", "Y"⟩)], 1000001⟩
    "[T]" "T" "S1" "C1" 1000000 true (by decide) (by decide) (by decide) (by decide)
    (by decide) (by decide)
  exact ⟨hh.1 (Or.inr (by decide)), hh.2 "U" ⟨"X", "Y"⟩ (by decide)⟩

theorem ID_TAG_RE_match_ne_empty {s g : String} (h : ID_TAG_RE_match s = some g) :
    s ≠ "" := by
  intro he
  subst he
  simp [ID_TAG_RE_match] at h

/-- C9: per-cell semantics of numeric (`int`/`long`) columns: an empty (or
NA) cell resolves to `0`; a whole-cell placeholder resolves to the tag's
identifier — the stored one on a hit (store's tags unchanged), the freshly
allocated one on a miss (which becomes the tag's binding); any other cell
is parsed as a literal integer and passed through with the store completely
unchanged — in particular no uniqueness check is made against allocated
identifiers, even when the literal coincides with one. -/
theorem c9_numeric_cell_semantics (m : IdMap) (sheet col : String) (x : Option String) :
    (cellToStr x = "" → map_cell m sheet col x = some ((0, false), m)) ∧
    (∀ g v, ID_TAG_RE_match (cellToStr x) = some g →
      alookup m.tags (pyStrip g) = some v →
      ∃ m', map_cell m sheet col x = some ((v, true), m') ∧ m'.tags = m.tags) ∧
    (∀ g, ID_TAG_RE_match (cellToStr x) = some g →
      alookup m.tags (pyStrip g) = none →
      ∃ m', map_cell m sheet col x = some (((_alloc_next_free m).1, true), m') ∧
        alookup m'.tags (pyStrip g) = some (_alloc_next_free m).1) ∧
    (∀ n : Int, ID_TAG_RE_match (cellToStr x) = none →
      _must_int (cellToStr x) = some n → cellToStr x ≠ "" →
      map_cell m sheet col x = some ((n, false), m)) := by
  refine ⟨?_, ?_, ?_, ?_⟩
  · intro he
    simp [map_cell, he]
  · intro g v hg hl
    have hne := ID_TAG_RE_match_ne_empty hg
    simp only [map_cell, if_neg hne]
    rw [map_token_hit sheet col hg hl]
    exact ⟨_, rfl, rfl⟩
  · intro g hg hl
    have hne := ID_TAG_RE_match_ne_empty hg
    simp only [map_cell, if_neg hne]
    rw [map_token_miss sheet col hg hl]
    refine ⟨_, rfl, ?_⟩
    show alookup (m.tags ++ [(pyStrip g, (_alloc_next_free m).1)]) (pyStrip g) =
      some (_alloc_next_free m).1
    rw [alookup_append_none hl]
    simp [alookup]
  · intro n hg hn hne
    simp only [map_cell, if_neg hne]
    rw [map_token_lit sheet col hg, hn]
    rfl

/-- Witness for C9: an NA cell gives 0; `[Sword]` re-resolves to the stored
1000000; `[New]` allocates 1000001 on the same store; and the literal cell
`"1000000"`, which coincides with Sword's allocated identifier, passes
through with the store unchanged. -/
theorem c9_numeric_cell_semantics_witness :
    map_cell ⟨[("Sword", 1000000)], [("Sword", ⟨"S", "A"⟩)], 1000001⟩ "S" "A" none =
      some ((0, false), ⟨[("Sword", 1000000)], [("Sword", ⟨"S", "A"⟩)], 1000001⟩) ∧
    (∃ m', map_cell ⟨[("Sword", 1000000)], [("Sword", ⟨"S", "A"⟩)], 1000001⟩ "S" "A"
        (some "[Sword]") = some ((1000000, true), m') ∧
      m'.tags = [("Sword", 1000000)]) ∧
    (∃ m', map_cell ⟨[("Sword", 1000000)], [("Sword", ⟨"S", "A"⟩)], 1000001⟩ "S" "A"
        (some "[New]") =
        some (((_alloc_next_free ⟨[("Sword", 1000000)],
          [("Sword", ⟨"S", "A"⟩)], 1000001⟩).1, true), m') ∧
      alookup m'.tags "New" =
        some (_alloc_next_free ⟨[("Sword", 1000000)],
          [("Sword", ⟨"S", "A"⟩)], 1000001⟩).1) ∧
    map_cell ⟨[("Sword", 1000000)], [("Sword", ⟨"S", "A"⟩)], 1000001⟩ "S" "A"
      (some "1000000") =
      some ((1000000, false), ⟨[("Sword", 1000000)], [("Sword", ⟨"S", "A"⟩)], 1000001⟩) := by
  have hh := c9_numeric_cell_semantics
    ⟨[("Sword", 1000000)], [("Sword", ⟨"S", "A"⟩)], 1000001⟩ "S" "A"
  refine ⟨(hh none).1 (by decide), ?_, ?_, (hh (some "1000000")).2.2.2 1000000
    (by decide) (by decide) (by decide)⟩
  · obtain ⟨m', h1, h2⟩ := (hh (some "[Sword]")).2.1 "Sword" 1000000 (by decide) (by decide)
    exact ⟨m', h1, h2⟩
  · obtain ⟨m', h1, h2⟩ := (hh (some "[New]")).2.2.1 "New" (by decide) (by decide)
    exact ⟨m', h1, h2⟩

/-! ## Trimming of tags (C10) -/

theorem stripChars_ws_cons {c : Char} (h : c.isWhitespace = true) (l : List Char) :
    stripChars (c :: l) = stripChars l := by
  unfold stripChars
  rw [List.dropWhile_cons, if_pos h]

theorem stripChars_append_ws {c : Char} (h : c.isWhitespace = true) :
    ∀ l, stripChars (l ++ [c]) = stripChars l := by
  intro l
  induction l with
  | nil =>
    show stripChars [c] = stripChars []
    rw [stripChars_ws_cons h]
  | cons a l' ih =>
    by_cases ha : a.isWhitespace
    · rw [List.cons_append, stripChars_ws_cons ha, stripChars_ws_cons ha, ih]
    · have ha' : a.isWhitespace = false := by revert ha; cases a.isWhitespace <;> simp
      unfold stripChars
      rw [List.cons_append, List.dropWhile_cons, if_neg (by simp [ha']),
        List.dropWhile_cons, if_neg (by simp [ha'])]
      rw [List.reverse_cons, List.reverse_cons, List.reverse_append]
      show (((([c].reverse ++ l'.reverse) ++ [a]).dropWhile Char.isWhitespace).reverse : List Char) = _
      rw [show (([c].reverse ++ l'.reverse) ++ [a] : List Char) =
        c :: (l'.reverse ++ [a]) from by simp]
      rw [List.dropWhile_cons, if_pos h]

theorem ID_TAG_RE_match_wrap (t : String) (hne : t ≠ "")
    (hnl : t.data.contains '\n' = false) :
    ID_TAG_RE_match (String.mk ('[' :: (t.data ++ [']']))) = some t ∧
    ID_TAG_RE_match (String.mk ('[' :: ' ' :: (t.data ++ [' ', ']']))) =
      some (String.mk (' ' :: (t.data ++ [' ']))) := by
  have hdata : t.data ≠ [] := by
    intro he
    apply hne
    cases t with
    | mk d => simp at he; rw [he]
  constructor
  · show (match (t.data ++ [']']).reverse with
      | ']' :: revMid => _
      | _ => none) = some t
    rw [show (t.data ++ [']']).reverse = ']' :: t.data.reverse from by simp]
    simp only [List.reverse_reverse]
    rw [if_neg (by simp [hdata]),
      if_neg (by simp [List.contains, List.elem_eq_mem] at hnl ⊢; exact hnl)]
  · show (match (' ' :: (t.data ++ [' ', ']'])).reverse with
      | ']' :: revMid => _
      | _ => none) = some (String.mk (' ' :: (t.data ++ [' '])))
    rw [show (' ' :: (t.data ++ [' ', ']'])).reverse =
      ']' :: (' ' :: (t.data ++ [' '])).reverse from by simp]
    simp only [List.reverse_reverse]
    rw [if_neg (by simp), if_neg ?hnl2]
    case hnl2 =>
      simp [List.contains, List.elem_eq_mem] at hnl ⊢
      exact hnl

theorem mem_dictInsert {α : Type} {l : List (String × α)} {k : String} {v : α}
    {p : String × α} (h : p ∈ dictInsert l k v) : p ∈ l ∨ p = (k, v) := by
  induction l with
  | nil =>
    simp [dictInsert] at h
    exact Or.inr h
  | cons q rest ih =>
    obtain ⟨a, b⟩ := q
    simp only [dictInsert] at h
    split at h
    · rcases List.mem_cons.mp h with h | h
      · exact Or.inr h
      · exact Or.inl (List.mem_cons_of_mem _ h)
    · rcases List.mem_cons.mp h with h | h
      · exact Or.inl (h ▸ List.mem_cons_self _ _)
      · rcases ih h with h | h
        · exact Or.inl (List.mem_cons_of_mem _ h)
        · exact Or.inr h

theorem loadFlatEntry_keys (m : IdMap) (kv : String × Option Int)
    (h : ∀ p ∈ m.tags, pyStrip p.1 = p.1 ∧ p.1 ≠ "") :
    ∀ p ∈ (loadFlatEntry m kv).tags, pyStrip p.1 = p.1 ∧ p.1 ≠ "" := by
  intro p hp
  by_cases hkey : pyStrip kv.1 = ""
  · simp only [loadFlatEntry, if_pos hkey] at hp
    exact h p hp
  · cases hv : kv.2 with
    | none =>
      simp only [loadFlatEntry, if_neg hkey, hv] at hp
      exact h p hp
    | some v =>
      simp only [loadFlatEntry, if_neg hkey, hv] at hp
      have hp' : p ∈ dictInsert m.tags (pyStrip kv.1) v := by
        split at hp <;> exact hp
      rcases mem_dictInsert hp' with h1 | h1
      · exact h p h1
      · subst h1
        exact ⟨pyStrip_idem kv.1, hkey⟩

theorem loadRecordEntry_keys (m : IdMap) (item : Option RawRecord)
    (h : ∀ p ∈ m.tags, pyStrip p.1 = p.1 ∧ p.1 ≠ "") :
    ∀ p ∈ (loadRecordEntry m item).tags, pyStrip p.1 = p.1 ∧ p.1 ≠ "" := by
  intro p hp
  cases item with
  | none => exact h p hp
  | some it =>
    by_cases hkey : pyStrip it.tagString = ""
    · simp only [loadRecordEntry, if_pos hkey] at hp
      exact h p hp
    · cases hv : it.tagInt with
      | none =>
        simp only [loadRecordEntry, if_neg hkey, hv] at hp
        exact h p hp
      | some v =>
        simp only [loadRecordEntry, if_neg hkey, hv] at hp
        have hp' : p ∈ dictInsert m.tags (pyStrip it.tagString) v := by
          split at hp <;> exact hp
        rcases mem_dictInsert hp' with h1 | h1
        · exact h p h1
        · subst h1
          exact ⟨pyStrip_idem it.tagString, hkey⟩

theorem load_id_map_keys (raw : Option RawFile) (idStart : Int) :
    ∀ p ∈ (load_id_map raw idStart).tags, pyStrip p.1 = p.1 ∧ p.1 ≠ "" := by
  cases raw with
  | none => intro p hp; simp [load_id_map] at hp
  | some r =>
    cases hr : r.tags with
    | absent =>
      intro p hp
      simp [load_id_map, hr] at hp
    | flat es =>
      simp only [load_id_map, hr]
      have key : ∀ (l : List (String × Option Int)) (m : IdMap),
          (∀ p ∈ m.tags, pyStrip p.1 = p.1 ∧ p.1 ≠ "") →
          ∀ p ∈ (l.foldl loadFlatEntry m).tags, pyStrip p.1 = p.1 ∧ p.1 ≠ "" := by
        intro l
        induction l with
        | nil => intro m hm; exact hm
        | cons e rest ih =>
          intro m hm
          exact ih (loadFlatEntry m e) (loadFlatEntry_keys m e hm)
      exact key es _ (by intro p hp; simp at hp)
    | records es =>
      simp only [load_id_map, hr]
      have key : ∀ (l : List (Option RawRecord)) (m : IdMap),
          (∀ p ∈ m.tags, pyStrip p.1 = p.1 ∧ p.1 ≠ "") →
          ∀ p ∈ (l.foldl loadRecordEntry m).tags, pyStrip p.1 = p.1 ∧ p.1 ≠ "" := by
        intro l
        induction l with
        | nil => intro m hm; exact hm
        | cons e rest ih =>
          intro m hm
          exact ih (loadRecordEntry m e) (loadRecordEntry_keys m e hm)
      exact key es _ (by intro p hp; simp at hp)

/-- Counterexample to C10 as stated: the cell token `"[ ]"` matches the
placeholder pattern with group `" "`, which trims to the *empty* tag — and
the empty string is then entered as a key of the tag map with a freshly
allocated identifier. -/
theorem c10_counterexample :
    map_token_to_global_id ⟨[], [], 1000000⟩ "[ ]" "S" "C" =
      some ((1000000, true), ⟨[("", 1000000)], [("", ⟨"S", "C"⟩)], 1000001⟩) ∧
    ("", (1000000 : Int)) ∈
      (⟨[("", 1000000)], [("", ⟨"S", "C"⟩)], 1000001⟩ : IdMap).tags := by
  refine ⟨by decide, by decide⟩

/-- C10 (amended): tag text is trimmed both when extracted from a
placeholder and when loaded from the persisted store: `[t]` and `[ t ]`
resolve identically (same identifier, same resulting store), and every key
of a loaded tag map is a stripped, nonempty string (whitespace-only
persisted entries are skipped) — but a *placeholder* whose bracket content
is whitespace-only trims to the empty tag and *is* entered as a key. -/
theorem c10_tag_trimming (m : IdMap) (t sheet col : String)
    (hne : t ≠ "") (hnl : t.data.contains '\n' = false) :
    map_token_to_global_id m (String.mk ('[' :: (t.data ++ [']']))) sheet col =
      map_token_to_global_id m (String.mk ('[' :: ' ' :: (t.data ++ [' ', ']']))) sheet col ∧
    (∀ (raw : Option RawFile) (idStart : Int),
      ∀ p ∈ (load_id_map raw idStart).tags, pyStrip p.1 = p.1 ∧ p.1 ≠ "") := by
  obtain ⟨hg1, hg2⟩ := ID_TAG_RE_match_wrap t hne hnl
  have hstrip : pyStrip (String.mk (' ' :: (t.data ++ [' ']))) = pyStrip t := by
    show String.mk (stripChars (' ' :: (t.data ++ [' ']))) = String.mk (stripChars t.data)
    rw [stripChars_ws_cons (by decide : (' ' : Char).isWhitespace = true),
      stripChars_append_ws (by decide : (' ' : Char).isWhitespace = true)]
  have hg1' : ID_TAG_RE_match (String.mk ('[' :: (t.data ++ [']']))) = some t := hg1
  refine ⟨?_, fun raw idStart => load_id_map_keys raw idStart⟩
  cases hl : alookup m.tags (pyStrip t) with
  | some w =>
    rw [map_token_hit sheet col hg1' hl,
      map_token_hit sheet col hg2 (by rw [hstrip]; exact hl), hstrip]
  | none =>
    rw [map_token_miss sheet col hg1' hl,
      map_token_miss sheet col hg2 (by rw [hstrip]; exact hl), hstrip]

/-- Witness for C10 (amended): `[Sword]` and `[ Sword ]` resolve to the
same result on the empty store; loading a store with padded and
whitespace-only keys keeps only the stripped, nonempty key. -/
theorem c10_tag_trimming_witness :
    map_token_to_global_id ⟨[], [], 1000000⟩
      (String.mk ('[' :: ("Sword".data ++ [']']))) "S" "C" =
      map_token_to_global_id ⟨[], [], 1000000⟩
      (String.mk ('[' :: ' ' :: ("Sword".data ++ [' ', ']']))) "S" "C" ∧
    (∀ p ∈ (load_id_map (some ⟨none, RawTags.flat
        [("  X  ", some 7), ("   ", some 8)]⟩) 1000000).tags,
      pyStrip p.1 = p.1 ∧ p.1 ≠ "") :=
  ⟨(c10_tag_trimming ⟨[], [], 1000000⟩ "Sword" "S" "C" (by decide) (by decide)).1,
   (c10_tag_trimming ⟨[], [], 1000000⟩ "Sword" "S" "C" (by decide) (by decide)).2
     (some ⟨none, RawTags.flat [("  X  ", some 7), ("   ", some 8)]⟩) 1000000⟩
